import Mathlib

/-!
Verification of the patient allocation core of ccmc_patient_allocator.

Shallow embedding of `src/models.py` (class `Physician`) and
`src/allocation.py` (function `allocate_patients`).  Python integers are
modelled as `Int`; the in-place mutation of the physician list is modelled by
state passing over `AllocState`, where a Python object reference into the
roster list becomes a list index.  The snapshot dictionaries
`initial_counts` and `initial_stepdown_counts` (keyed by physician name,
later bindings overwriting earlier ones) are modelled by `dictGet` over the
snapshot of the input list.  `Physician.remove_patient`, which raises when
the count is already zero, returns `Option`; the only caller inside the
allocator is Phase 5, so `allocate_patients` returns `Option AllocState`
(`none` = the Python exception propagating out).
-/

/-- Worker record, from `src/models.py` (`Physician.__init__`). -/
structure Physician where
  name : String
  is_new : Bool
  team : String
  is_buffer : Bool
  is_working : Bool
  total_patients : Int
  step_down_patients : Int
  transferred_patients : Int
  traded_patients : Int
deriving Repr, DecidableEq

/-- `Physician.add_patient()` with `is_step_down=False` (models.py line 34). -/
def add_patient (p : Physician) : Physician :=
  { p with total_patients := p.total_patients + 1 }

/-- `Physician.add_patient(is_step_down=True)` (models.py line 34). -/
def add_step_down (p : Physician) : Physician :=
  { p with step_down_patients := p.step_down_patients + 1 }

/-- `Physician.remove_patient()` with `is_step_down=False` (models.py line 41):
raises (returns `none`) when `total_patients < 1`. -/
def remove_patient (p : Physician) : Option Physician :=
  if p.total_patients < 1 then none
  else some { p with total_patients := p.total_patients - 1 }

/-- `Physician.set_total_patients` (models.py line 52). -/
def set_total_patients (p : Physician) (n : Int) : Physician :=
  { p with total_patients := n }

/-- The mutable state of one `allocate_patients` run: the roster list plus the
five pool counters (the local variables of the Python function). -/
structure AllocState where
  physicians : List Physician
  n_total_new_patients : Int
  n_A_new_patients : Int
  n_B_new_patients : Int
  n_N_new_patients : Int
  n_step_down_patients : Int
deriving Repr, DecidableEq

/-- Python `dict.get(k, d)` over a dict comprehension `{p.name: f p for p in snap}`:
later bindings overwrite earlier ones, so the last matching entry wins. -/
def dictGet (snap : List Physician) (f : Physician → Int) (k : String) (d : Int) : Int :=
  match (snap.filter (fun p => p.name == k)).getLast? with
  | some p => f p
  | none => d

/-- In-place mutation of the roster object at index `i`. -/
def modifyIdx : List Physician → Nat → (Physician → Physician) → List Physician
  | [], _, _ => []
  | p :: rest, 0, f => f p :: rest
  | p :: rest, Nat.succ n, f => p :: modifyIdx rest n f

/-- Stable insertion relative to a strict precedence test: `x` is placed before
the first element `y` with `¬ lt y x`.  With `lt` the strict key comparison
this reproduces Python `sorted` (stable, ascending). -/
def insertLt (lt : Nat → Nat → Bool) (x : Nat) : List Nat → List Nat
  | [] => [x]
  | y :: ys => if lt y x then y :: insertLt lt x ys else x :: y :: ys

/-- Stable sort by a strict precedence test; models Python `sorted(..., key=...)`. -/
def sortByLt (lt : Nat → Nat → Bool) : List Nat → List Nat
  | [] => []
  | x :: xs => insertLt lt x (sortByLt lt xs)

/-- Strict lexicographic comparison of Python 2-tuples of ints. -/
def ltPair (a b : Int × Int) : Bool := a.1 < b.1 || (a.1 == b.1 && a.2 < b.2)

/-- Strict lexicographic comparison of Python 3-tuples of ints. -/
def ltTriple (a b : Int × Int × Int) : Bool := a.1 < b.1 || (a.1 == b.1 && ltPair a.2 b.2)

/-- `total_patients` of the roster object at index `i` (0 when out of range;
indices used by the algorithm are always in range). -/
def totAt (l : List Physician) (i : Nat) : Int :=
  match l.get? i with | some p => p.total_patients | none => 0

/-- `step_down_patients` of the roster object at index `i`. -/
def sdAt (l : List Physician) (i : Nat) : Int :=
  match l.get? i with | some p => p.step_down_patients | none => 0

/-- `name` of the roster object at index `i`. -/
def nameAt (l : List Physician) (i : Nat) : String :=
  match l.get? i with | some p => p.name | none => ""

/-- One regular allocation from the Team A pool to physician `i`:
`physician.add_patient(); n_A_new_patients -= 1; n_total_new_patients -= 1`. -/
def allocFromA (s : AllocState) (i : Nat) : AllocState :=
  { s with physicians := modifyIdx s.physicians i add_patient,
           n_A_new_patients := s.n_A_new_patients - 1,
           n_total_new_patients := s.n_total_new_patients - 1 }

/-- One regular allocation from the Team B pool to physician `i`. -/
def allocFromB (s : AllocState) (i : Nat) : AllocState :=
  { s with physicians := modifyIdx s.physicians i add_patient,
           n_B_new_patients := s.n_B_new_patients - 1,
           n_total_new_patients := s.n_total_new_patients - 1 }

/-- One regular allocation from the Team N pool to physician `i`. -/
def allocFromN (s : AllocState) (i : Nat) : AllocState :=
  { s with physicians := modifyIdx s.physicians i add_patient,
           n_N_new_patients := s.n_N_new_patients - 1,
           n_total_new_patients := s.n_total_new_patients - 1 }

/-- One step-down allocation to physician `i`:
`physician.add_patient(is_step_down=True); n_step_down_patients -= 1`. -/
def allocSD (s : AllocState) (i : Nat) : AllocState :=
  { s with physicians := modifyIdx s.physicians i add_step_down,
           n_step_down_patients := s.n_step_down_patients - 1 }

/-- Dispatch on the team string of the pool being drawn from (used by Phase 2,
where the `if/elif` chain on `physician.team` selects the pool). -/
def allocTeam (t : String) (s : AllocState) (i : Nat) : AllocState :=
  if t == "A" then allocFromA s i
  else if t == "B" then allocFromB s i
  else if t == "N" then allocFromN s i
  else s

/-- `can_take_patient` (allocation.py line 40). -/
def can_take_patient (maximum_patients : Int) (p : Physician) : Bool :=
  p.total_patients < maximum_patients

/-- `can_take_step_down` (allocation.py line 47).  Note: it checks only the
step-down gain since the snapshot, not the capacity bound. -/
def can_take_step_down (snap : List Physician) (p : Physician) : Bool :=
  p.step_down_patients - dictGet snap (fun q => q.step_down_patients) p.name 0 < 1

/-- Indices of `[p for p in team_t if p.is_working]`, in roster order. -/
def workingIdxs (l : List Physician) (t : String) : List Nat :=
  (List.range l.length).filter fun i =>
    match l.get? i with
    | some p => p.team == t && p.is_working
    | none => false

/-- Sort key of Phase 1: `initial_stepdown_counts.get(x.name, x.step_down_patients)`. -/
def sdKey (snap : List Physician) (l : List Physician) (i : Nat) : Int :=
  dictGet snap (fun q => q.step_down_patients) (nameAt l i) (sdAt l i)

/-- Phase 1 distribution loop over one sorted team (allocation.py lines 63-68
and 74-79): break when the step-down pool is exhausted, give one unit to each
physician passing `can_take_step_down`. -/
def phase1Loop (snap : List Physician) : AllocState → List Nat → AllocState
  | s, [] => s
  | s, i :: rest =>
    if s.n_step_down_patients ≤ 0 then s
    else
      match s.physicians.get? i with
      | none => phase1Loop snap s rest
      | some p =>
        if can_take_step_down snap p then phase1Loop snap (allocSD s i) rest
        else phase1Loop snap s rest

/-- Phase 1: step-down allocation, Team B first, then Team A (lines 52-79). -/
def phase1 (snap : List Physician) (s : AllocState) : AllocState :=
  let wB := workingIdxs s.physicians "B"
  let wA := workingIdxs s.physicians "A"
  let sortedB := sortByLt (fun i j => sdKey snap s.physicians i < sdKey snap s.physicians j) wB
  let s1 := phase1Loop snap s sortedB
  if s1.n_step_down_patients > 0 then
    let sortedA := sortByLt (fun i j => sdKey snap s1.physicians i < sdKey snap s1.physicians j) wA
    phase1Loop snap s1 sortedA
  else s1

/-- Phase 2 inner loop `for _ in range(min(needed, pool))` with its
`can_take_patient` check and early break (lines 91-113); `t` is the team of
the physician, fixed at loop entry. -/
def phase2Inner (maximum_patients : Int) (t : String) (i : Nat) : AllocState → Nat → AllocState
  | s, 0 => s
  | s, Nat.succ n =>
    match s.physicians.get? i with
    | none => s
    | some p =>
      if can_take_patient maximum_patients p then
        phase2Inner maximum_patients t i (allocTeam t s i) n
      else s

/-- Phase 2 body for one physician (lines 85-113). -/
def phase2Step (minimum_patients maximum_patients : Int) (s : AllocState) (i : Nat) : AllocState :=
  match s.physicians.get? i with
  | none => s
  | some p =>
    if p.is_new then s
    else if p.total_patients ≤ minimum_patients - 2 && can_take_patient maximum_patients p then
      let needed := minimum_patients - p.total_patients
      if p.team == "A" then phase2Inner maximum_patients "A" i s (min needed s.n_A_new_patients).toNat
      else if p.team == "B" then phase2Inner maximum_patients "B" i s (min needed s.n_B_new_patients).toNat
      else if p.team == "N" then phase2Inner maximum_patients "N" i s (min needed s.n_N_new_patients).toNat
      else s
    else s

/-- Phase 2: fix below-minimum physicians (lines 81-113). -/
def phase2 (minimum_patients maximum_patients : Int) (s : AllocState) : AllocState :=
  (List.range s.physicians.length).foldl (phase2Step minimum_patients maximum_patients) s

/-- Phase 3 `while needed > 0 and can_take_patient(...)` loop for one new
physician (lines 123-168): own team pool first, then cross-pool fallback in
the order A, B, N; break when nothing could be allocated. -/
def phase3Loop (maximum_patients : Int) (i : Nat) : AllocState → Nat → AllocState
  | s, 0 => s
  | s, Nat.succ n =>
    match s.physicians.get? i with
    | none => s
    | some p =>
      if can_take_patient maximum_patients p then
        if p.team == "A" && s.n_A_new_patients > 0 then phase3Loop maximum_patients i (allocFromA s i) n
        else if p.team == "B" && s.n_B_new_patients > 0 then phase3Loop maximum_patients i (allocFromB s i) n
        else if p.team == "N" && s.n_N_new_patients > 0 then phase3Loop maximum_patients i (allocFromN s i) n
        else if s.n_A_new_patients > 0 then phase3Loop maximum_patients i (allocFromA s i) n
        else if s.n_B_new_patients > 0 then phase3Loop maximum_patients i (allocFromB s i) n
        else if s.n_N_new_patients > 0 then phase3Loop maximum_patients i (allocFromN s i) n
        else s
      else s

/-- Phase 3 body for one physician (lines 117-168); `needed <= 0` makes the
loop a no-op, matching the `continue`. -/
def phase3Step (new_start_number maximum_patients : Int) (s : AllocState) (i : Nat) : AllocState :=
  match s.physicians.get? i with
  | none => s
  | some p =>
    if p.is_new then
      phase3Loop maximum_patients i s (new_start_number - p.total_patients).toNat
    else s

/-- Phase 3: fill new physicians toward `new_start_number` (lines 115-168). -/
def phase3 (new_start_number maximum_patients : Int) (s : AllocState) : AllocState :=
  (List.range s.physicians.length).foldl (phase3Step new_start_number maximum_patients) s

/-- Pointwise-updated name-keyed dict, modelling `d[k] = v`. -/
def updFn (g : String → Int) (k : String) (v : Int) : String → Int :=
  fun n => if n == k then v else g n

/-- Sort key component `initial_counts.get(x.name, x.total_patients)`
(allocation.py lines 201, 213, 231). -/
def totKeyD (snap : List Physician) (l : List Physician) (i : Nat) : Int :=
  dictGet snap (fun q => q.total_patients) (nameAt l i) (totAt l i)

/-- Phase 4 Team-N priority loop (lines 181-188).  The source also updates the
`current_gains` dict here, but that dict is rebuilt from scratch at line 191
before its next read, so the update has no effect and is not modelled. -/
def nLoop (maximum_patients : Int) : AllocState → List Nat → AllocState
  | s, [] => s
  | s, i :: rest =>
    if s.n_N_new_patients ≤ 0 then s
    else
      match s.physicians.get? i with
      | none => nLoop maximum_patients s rest
      | some p =>
        if can_take_patient maximum_patients p then nLoop maximum_patients (allocFromN s i) rest
        else nLoop maximum_patients s rest

/-- The `current_gains` dict of line 191:
`{p.name: p.total_patients - initial_counts[p.name] for p in non_new_physicians}`.
Every physician name is a key of `initial_counts`, so the direct indexing
never raises; it equals `dictGet` with any default. -/
def buildCG (snap : List Physician) (s : AllocState) (idxs : List Nat) : String → Int :=
  idxs.foldl (fun g i =>
    match s.physicians.get? i with
    | some p => updFn g p.name (p.total_patients - dictGet snap (fun q => q.total_patients) p.name 0)
    | none => g) (fun _ => 0)

/-- The `target_total_gains` dict (lines 248-253): the first `rem` physicians
in sorted order get `base + 1`, the rest get `base`. -/
def buildTTG (names : List String) (base rem : Int) : String → Int :=
  (names.foldl (fun (acc : (String → Int) × Int) nm =>
    (updFn acc.1 nm (if acc.2 < rem then base + 1 else base), acc.2 + 1))
    ((fun _ => 0 : String → Int), (0 : Int))).1

/-- One pass of the round-robin ladder (lines 211-220 and 229-239): re-sort by
(current target, initial total, current total), then hand out +1 targets until
the budget runs out. -/
def rrPass (keys : Nat → Int × Int) (nms : Nat → String) (ps : List Nat)
    (tag : String → Int) (ptd : Int) : (String → Int) × Int :=
  let order := sortByLt (fun i j =>
    ltTriple (tag (nms i), keys i) (tag (nms j), keys j)) ps
  order.foldl (fun acc i =>
    if acc.2 ≤ 0 then acc
    else (updFn acc.1 (nms i) (acc.1 (nms i) + 1), acc.2 - 1)) (tag, ptd)

/-- The `while patients_to_distribute > 0` ladder loop; every pass with a
non-empty list lowers the budget by at least one, so a fuel of the initial
budget is exact. -/
def rrLoop (keys : Nat → Int × Int) (nms : Nat → String) (ps : List Nat) :
    Nat → (String → Int) → Int → (String → Int) × Int
  | 0, tag, ptd => (tag, ptd)
  | fuel+1, tag, ptd =>
    if ptd > 0 then
      let r := rrPass keys nms ps tag ptd
      rrLoop keys nms ps fuel r.1 r.2
    else (tag, ptd)

/-- Cross-pool fallback of the Phase 4 distribution loop (lines 310-348). -/
def crossPool (maximum_patients target gain : Int) (p : Physician)
    (s : AllocState) (i : Nat) : AllocState × Bool :=
  if gain < target && can_take_patient maximum_patients p then
    let canUse := p.is_buffer || (p.team == "A" && s.n_A_new_patients == 0)
      || (p.team == "B" && s.n_B_new_patients == 0)
      || (p.team == "N" && s.n_N_new_patients == 0)
    if canUse then
      if s.n_A_new_patients > 0 && (can_take_patient maximum_patients p && gain < target) then
        (allocFromA s i, true)
      else if s.n_B_new_patients > 0 && (can_take_patient maximum_patients p && gain < target) then
        (allocFromB s i, true)
      else if s.n_N_new_patients > 0 && (can_take_patient maximum_patients p && gain < target) then
        (allocFromN s i, true)
      else (s, false)
    else (s, false)
  else (s, false)

/-- One physician of one pass of the Phase 4 targeted distribution loop
(lines 270-348); the returned flag is `made_progress` for this physician. -/
def distStep (snap : List Physician) (maximum_patients : Int) (ttg : String → Int)
    (s : AllocState) (i : Nat) : AllocState × Bool :=
  match s.physicians.get? i with
  | none => (s, false)
  | some p =>
    if p.is_new then (s, false)
    else
      let target := ttg p.name
      let gain := p.total_patients - dictGet snap (fun q => q.total_patients) p.name 0
      if target - gain ≤ 0 || !can_take_patient maximum_patients p then (s, false)
      else if p.team == "A" && s.n_A_new_patients > 0 then
        if can_take_patient maximum_patients p && gain < target then (allocFromA s i, true)
        else crossPool maximum_patients target gain p s i
      else if p.team == "B" && s.n_B_new_patients > 0 then
        if can_take_patient maximum_patients p && gain < target then (allocFromB s i, true)
        else crossPool maximum_patients target gain p s i
      else if p.team == "N" && s.n_N_new_patients > 0 then
        if can_take_patient maximum_patients p && gain < target then (allocFromN s i, true)
        else crossPool maximum_patients target gain p s i
      else crossPool maximum_patients target gain p s i

/-- One full pass over `sorted_physicians` of the targeted distribution loop. -/
def distPass (snap : List Physician) (maximum_patients : Int) (ttg : String → Int)
    (ps : List Nat) (s : AllocState) : AllocState × Bool :=
  ps.foldl (fun acc i => ((distStep snap maximum_patients ttg acc.1 i).1,
    acc.2 || (distStep snap maximum_patients ttg acc.1 i).2)) (s, false)

/-- The `while remaining_after_targets > 0 and iteration < max_iterations`
loop (lines 266-353); `remaining_after_targets` is recomputed from the pools
at the end of each pass, so the condition is just the current pool sum, and
the fuel is `max_iterations`. -/
def distLoop (snap : List Physician) (maximum_patients : Int) (ttg : String → Int)
    (ps : List Nat) : Nat → AllocState → AllocState
  | 0, s => s
  | fuel+1, s =>
    if s.n_A_new_patients + s.n_B_new_patients + s.n_N_new_patients > 0 then
      let r := distPass snap maximum_patients ttg ps s
      if r.2 then distLoop snap maximum_patients ttg ps fuel r.1 else r.1
    else s

/-- Key of the leftover pass sort (lines 358-361):
`(target - actual gain, total_patients)`, sorted descending. -/
def needKey (snap : List Physician) (ttg : String → Int) (l : List Physician) (i : Nat) :
    Int × Int :=
  (ttg (nameAt l i) - (totAt l i - dictGet snap (fun q => q.total_patients) (nameAt l i) 0),
   totAt l i)

/-- One physician of the Phase 4 leftover pass (lines 363-390); the carried
`Int` is `remaining_final`, and once it hits 0 the Python loop breaks, which
is the same as skipping every remaining physician. -/
def finalStep (snap : List Physician) (maximum_patients : Int) (ttg : String → Int)
    (acc : AllocState × Int) (i : Nat) : AllocState × Int :=
  let s := acc.1
  match s.physicians.get? i with
  | none => acc
  | some p =>
    if p.is_new then acc
    else if acc.2 ≤ 0 then acc
    else
      let target := ttg p.name
      let gain := p.total_patients - dictGet snap (fun q => q.total_patients) p.name 0
      if target - gain ≤ 0 || !can_take_patient maximum_patients p then acc
      else if s.n_A_new_patients > 0 && gain < target then (allocFromA s i, acc.2 - 1)
      else if s.n_B_new_patients > 0 && gain < target then (allocFromB s i, acc.2 - 1)
      else if s.n_N_new_patients > 0 && gain < target then (allocFromN s i, acc.2 - 1)
      else acc

/-- The Phase 4 leftover pass (lines 356-390). -/
def finalLoop (snap : List Physician) (maximum_patients : Int) (ttg : String → Int)
    (s : AllocState) (ps : List Nat) (remFinal : Int) : AllocState :=
  (ps.foldl (finalStep snap maximum_patients ttg) (s, remFinal)).1

/-- Phase 4: even distribution (lines 170-390).  The round-robin ladder value
`tagLadder` and its post-normalization overwrite `tagFinal` reproduce lines
205-259; the source never reads `target_additional_gains` after line 259, so
these bindings are dead, exactly as in the source. -/
def phase4 (snap : List Physician) (maximum_patients : Int) (s : AllocState) : AllocState :=
  let nn0 := (List.range s.physicians.length).filter fun i =>
    match s.physicians.get? i with
    | some p => !p.is_new && can_take_patient maximum_patients p
    | none => false
  let nn := nn0.filter fun i =>
    match s.physicians.get? i with
    | some p => !p.is_new
    | none => false
  let teamNnn := (List.range s.physicians.length).filter fun i =>
    match s.physicians.get? i with
    | some p => p.team == "N" && !p.is_new && can_take_patient maximum_patients p
    | none => false
  let s1 :=
    if !teamNnn.isEmpty && s.n_N_new_patients > 0 then
      nLoop maximum_patients s
        (sortByLt (fun i j => totAt s.physicians i < totAt s.physicians j) teamNnn)
    else s
  let cg := buildCG snap s1 nn
  let remaining := s1.n_A_new_patients + s1.n_B_new_patients + s1.n_N_new_patients
  if remaining > 0 && !nn.isEmpty then
    if nn.length > 0 then
      let sortedPs := sortByLt (fun i j =>
        ltPair (totKeyD snap s1.physicians i, totAt s1.physicians i)
               (totKeyD snap s1.physicians j, totAt s1.physicians j)) nn
      let keys := fun i => (totKeyD snap s1.physicians i, totAt s1.physicians i)
      let nms := fun i => nameAt s1.physicians i
      let tagLadder :=
        if (nn.length : Int) > remaining then
          rrLoop keys nms sortedPs remaining.toNat (fun _ => 0) remaining
        else
          let first := sortedPs.foldl (fun acc i =>
            if acc.2 ≤ 0 then acc
            else (updFn acc.1 (nms i) (acc.1 (nms i) + 1), acc.2 - 1))
            ((fun _ => (0 : Int) : String → Int), remaining)
          rrLoop keys nms sortedPs remaining.toNat first.1 first.2
      let cgSum := (sortedPs.map fun i => cg (nameAt s1.physicians i)).sum
      let neededTotal := cgSum + remaining
      let base := neededTotal.ediv (nn.length : Int)
      let rem := neededTotal.emod (nn.length : Int)
      let ttg := buildTTG (sortedPs.map fun i => nameAt s1.physicians i) base rem
      let _tagFinal := sortedPs.foldl (fun g i =>
        updFn g (nms i) (max 0 (ttg (nms i) - cg (nms i)))) tagLadder.1
      let rat := s1.n_A_new_patients + s1.n_B_new_patients + s1.n_N_new_patients
      let s2 := distLoop snap maximum_patients ttg sortedPs (rat * 3).toNat s1
      let remFinal := s2.n_A_new_patients + s2.n_B_new_patients + s2.n_N_new_patients
      if remFinal > 0 then
        let sortedNeed := sortByLt (fun i j =>
          ltPair (needKey snap ttg s2.physicians j) (needKey snap ttg s2.physicians i)) sortedPs
        finalLoop snap maximum_patients ttg s2 sortedNeed remFinal
      else s2
    else s1
  else s1

/-- `for _ in range(excess): physician.remove_patient()` (lines 403-404). -/
def removeN (p : Physician) : Nat → Option Physician
  | 0 => some p
  | k+1 =>
    match remove_patient p with
    | none => none
    | some p' => removeN p' k

/-- Phase 5 body for one physician (lines 394-405). -/
def phase5Step (snap : List Physician) (new_start_number : Int)
    (s : AllocState) (i : Nat) : Option AllocState :=
  match s.physicians.get? i with
  | none => some s
  | some p =>
    if p.is_new then
      let initial_total := dictGet snap (fun q => q.total_patients) p.name p.total_patients
      let gained := p.total_patients - initial_total
      if initial_total ≥ new_start_number then
        if gained > 0 then
          match removeN p gained.toNat with
          | none => none
          | some p' =>
            some { s with
              physicians := modifyIdx s.physicians i (fun _ => set_total_patients p' initial_total) }
        else some s
      else some s
    else some s

/-- Phase 5 loop over the roster, propagating the exception of
`remove_patient` as `none`. -/
def phase5Aux (snap : List Physician) (new_start_number : Int) :
    AllocState → List Nat → Option AllocState
  | s, [] => some s
  | s, i :: rest =>
    match phase5Step snap new_start_number s i with
    | none => none
    | some s' => phase5Aux snap new_start_number s' rest

/-- Phase 5: final verification (lines 392-405). -/
def phase5 (snap : List Physician) (new_start_number : Int) (s : AllocState) :
    Option AllocState :=
  phase5Aux snap new_start_number s (List.range s.physicians.length)

/-- `allocate_patients` (allocation.py lines 9-465); the returned state holds
the mutated roster and the residual pool counters of `remaining_pools`.  The
`results`/`summary` dictionaries are arithmetic over these values and carry no
further state. -/
def allocate_patients (physicians : List Physician)
    (n_total_new_patients n_A_new_patients n_B_new_patients n_N_new_patients : Int)
    (new_start_number : Int) (minimum_patients : Int) (n_step_down_patients : Int)
    (maximum_patients : Int) : Option AllocState :=
  let snap := physicians
  let s0 : AllocState :=
    ⟨physicians, n_total_new_patients, n_A_new_patients, n_B_new_patients,
     n_N_new_patients, n_step_down_patients⟩
  let s1 := phase1 snap s0
  let s2 := phase2 minimum_patients maximum_patients s1
  let s3 := phase3 new_start_number maximum_patients s2
  let s4 := phase4 snap maximum_patients s3
  phase5 snap new_start_number s4

/-- Sum of `total_patients` over a roster. -/
def sumTotal (l : List Physician) : Int := (l.map (fun p => p.total_patients)).sum

/-- Sum of `step_down_patients` over a roster. -/
def sumSD (l : List Physician) : Int := (l.map (fun p => p.step_down_patients)).sum

/-! Basic lemmas about the primitives. -/

theorem modifyIdx_length (l : List Physician) (i : Nat) (f : Physician → Physician) :
    (modifyIdx l i f).length = l.length := by
  induction l generalizing i with
  | nil => rfl
  | cons p rest ih =>
    cases i with
    | zero => rfl
    | succ n => simpa [modifyIdx] using ih n

theorem get?_modifyIdx_ne (l : List Physician) (i : Nat) (f : Physician → Physician)
    (j : Nat) (h : j ≠ i) : (modifyIdx l i f).get? j = l.get? j := by
  induction l generalizing i j with
  | nil => rfl
  | cons p rest ih =>
    cases i with
    | zero =>
      cases j with
      | zero => exact absurd rfl h
      | succ m => rfl
    | succ n =>
      cases j with
      | zero => rfl
      | succ m => simpa [modifyIdx] using ih n m (fun hc => h (by omega))

theorem get?_modifyIdx_self (l : List Physician) (i : Nat) (f : Physician → Physician)
    (p : Physician) (h : l.get? i = some p) : (modifyIdx l i f).get? i = some (f p) := by
  induction l generalizing i with
  | nil => simp [List.get?] at h
  | cons q rest ih =>
    cases i with
    | zero =>
      simp only [List.get?] at h
      cases h
      rfl
    | succ n => simpa [modifyIdx] using ih n h

theorem sum_map_modifyIdx (g : Physician → Int) (l : List Physician) (i : Nat)
    (f : Physician → Physician) (p : Physician) (h : l.get? i = some p) :
    ((modifyIdx l i f).map g).sum = (l.map g).sum - g p + g (f p) := by
  induction l generalizing i with
  | nil => simp [List.get?] at h
  | cons q rest ih =>
    cases i with
    | zero =>
      simp only [List.get?] at h
      cases h
      simp [modifyIdx]
      ring
    | succ n =>
      simp only [List.get?] at h
      simp only [modifyIdx, List.map_cons, List.sum_cons, ih n h]
      ring

theorem insertLt_perm (lt : Nat → Nat → Bool) (x : Nat) (l : List Nat) :
    (insertLt lt x l).Perm (x :: l) := by
  induction l with
  | nil => exact List.Perm.refl _
  | cons y ys ih =>
    by_cases h : lt y x
    · simp only [insertLt, h, if_true]
      exact ((ih.cons y).trans (List.Perm.swap x y ys))
    · simp only [insertLt, h, if_false]
      exact List.Perm.refl _

theorem sortByLt_perm (lt : Nat → Nat → Bool) (l : List Nat) :
    (sortByLt lt l).Perm l := by
  induction l with
  | nil => exact List.Perm.refl _
  | cons x xs ih => exact (insertLt_perm lt x (sortByLt lt xs)).trans (ih.cons x)

theorem mem_sortByLt {lt : Nat → Nat → Bool} {l : List Nat} {i : Nat} :
    i ∈ sortByLt lt l ↔ i ∈ l := (sortByLt_perm lt l).mem_iff

theorem sortByLt_nodup {lt : Nat → Nat → Bool} {l : List Nat} (h : l.Nodup) :
    (sortByLt lt l).Nodup := (sortByLt_perm lt l).nodup_iff.mpr h

/-! The evolution relation: what every Phase 1-4 allocation step preserves. -/

/-- Relation between a physician before and after a run segment: identity
fields are untouched, `total_patients` and `step_down_patients` only grow,
and `total_patients` never grows past `maximum_patients` (every regular
allocation is guarded by `can_take_patient`). -/
structure PhysLe (M : Int) (p q : Physician) : Prop where
  name_eq : q.name = p.name
  team_eq : q.team = p.team
  new_eq : q.is_new = p.is_new
  buffer_eq : q.is_buffer = p.is_buffer
  working_eq : q.is_working = p.is_working
  transferred_eq : q.transferred_patients = p.transferred_patients
  traded_eq : q.traded_patients = p.traded_patients
  total_le : p.total_patients ≤ q.total_patients
  total_cap : q.total_patients ≤ max p.total_patients M
  sd_le : p.step_down_patients ≤ q.step_down_patients

theorem physLe_refl (M : Int) (p : Physician) : PhysLe M p p :=
  ⟨rfl, rfl, rfl, rfl, rfl, rfl, rfl, le_refl _, le_max_left _ _, le_refl _⟩

theorem physLe_trans {M : Int} {p q r : Physician} (h1 : PhysLe M p q) (h2 : PhysLe M q r) :
    PhysLe M p r := by
  refine ⟨h2.name_eq.trans h1.name_eq, h2.team_eq.trans h1.team_eq,
    h2.new_eq.trans h1.new_eq, h2.buffer_eq.trans h1.buffer_eq,
    h2.working_eq.trans h1.working_eq, h2.transferred_eq.trans h1.transferred_eq,
    h2.traded_eq.trans h1.traded_eq, h1.total_le.trans h2.total_le, ?_, h1.sd_le.trans h2.sd_le⟩
  calc r.total_patients ≤ max q.total_patients M := h2.total_cap
    _ ≤ max (max p.total_patients M) M := by
        exact max_le_max h1.total_cap (le_refl M)
    _ = max p.total_patients M := by rw [max_assoc, max_self]

/-- State evolution invariant shared by all Phase 1-4 allocation loops:
lengths and identity fields are preserved, per-worker counts relate by
`PhysLe`, the three conservation ledgers balance, and the four guarded pool
counters stay non-negative. -/
structure Evolves (M : Int) (s s' : AllocState) : Prop where
  len_eq : s'.physicians.length = s.physicians.length
  rel : ∀ i p q, s.physicians.get? i = some p → s'.physicians.get? i = some q → PhysLe M p q
  acct_total : sumTotal s'.physicians + s'.n_total_new_patients
             = sumTotal s.physicians + s.n_total_new_patients
  acct_team : sumTotal s'.physicians
                + (s'.n_A_new_patients + s'.n_B_new_patients + s'.n_N_new_patients)
            = sumTotal s.physicians
                + (s.n_A_new_patients + s.n_B_new_patients + s.n_N_new_patients)
  acct_sd : sumSD s'.physicians + s'.n_step_down_patients
          = sumSD s.physicians + s.n_step_down_patients
  nA_nonneg : 0 ≤ s.n_A_new_patients → 0 ≤ s'.n_A_new_patients
  nB_nonneg : 0 ≤ s.n_B_new_patients → 0 ≤ s'.n_B_new_patients
  nN_nonneg : 0 ≤ s.n_N_new_patients → 0 ≤ s'.n_N_new_patients
  nSD_nonneg : 0 ≤ s.n_step_down_patients → 0 ≤ s'.n_step_down_patients

theorem Evolves.refl (M : Int) (s : AllocState) : Evolves M s s := by
  refine ⟨rfl, ?_, rfl, rfl, rfl, id, id, id, id⟩
  intro i p q h1 h2
  rw [h1] at h2
  cases h2
  exact physLe_refl M p

theorem Evolves.trans {M : Int} {s t u : AllocState} (h1 : Evolves M s t) (h2 : Evolves M t u) :
    Evolves M s u := by
  refine ⟨h2.len_eq.trans h1.len_eq, ?_, h2.acct_total.trans h1.acct_total,
    h2.acct_team.trans h1.acct_team, h2.acct_sd.trans h1.acct_sd,
    fun h => h2.nA_nonneg (h1.nA_nonneg h), fun h => h2.nB_nonneg (h1.nB_nonneg h),
    fun h => h2.nN_nonneg (h1.nN_nonneg h), fun h => h2.nSD_nonneg (h1.nSD_nonneg h)⟩
  intro i p q hp hq
  have hlen : i < t.physicians.length := by
    obtain ⟨hu, -⟩ := List.get?_eq_some.mp hq
    have hle := h2.len_eq
    omega
  have hr : t.physicians.get? i = some (t.physicians.get ⟨i, hlen⟩) := List.get?_eq_get hlen
  exact physLe_trans (h1.rel i p _ hp hr) (h2.rel i _ q hr hq)


/-- The team pool selected by the `if/elif` chain on a team string. -/
def teamPool (s : AllocState) (t : String) : Int :=
  if t == "A" then s.n_A_new_patients
  else if t == "B" then s.n_B_new_patients
  else if t == "N" then s.n_N_new_patients
  else 0

theorem sumTotal_modify_add (l : List Physician) (i : Nat) (p : Physician)
    (h : l.get? i = some p) : sumTotal (modifyIdx l i add_patient) = sumTotal l + 1 := by
  unfold sumTotal
  rw [sum_map_modifyIdx (fun q => q.total_patients) l i add_patient p h]
  simp only [add_patient]
  omega

theorem sumSD_modify_add (l : List Physician) (i : Nat) (p : Physician)
    (h : l.get? i = some p) : sumSD (modifyIdx l i add_patient) = sumSD l := by
  unfold sumSD
  rw [sum_map_modifyIdx (fun q => q.step_down_patients) l i add_patient p h]
  simp only [add_patient]
  omega

theorem sumTotal_modify_sd (l : List Physician) (i : Nat) (p : Physician)
    (h : l.get? i = some p) : sumTotal (modifyIdx l i add_step_down) = sumTotal l := by
  unfold sumTotal
  rw [sum_map_modifyIdx (fun q => q.total_patients) l i add_step_down p h]
  simp only [add_step_down]
  omega

theorem sumSD_modify_sd (l : List Physician) (i : Nat) (p : Physician)
    (h : l.get? i = some p) : sumSD (modifyIdx l i add_step_down) = sumSD l + 1 := by
  unfold sumSD
  rw [sum_map_modifyIdx (fun q => q.step_down_patients) l i add_step_down p h]
  simp only [add_step_down]
  omega

theorem rel_modify_add_patient {M : Int} {l : List Physician} {i : Nat} {p0 : Physician}
    (hg : l.get? i = some p0) (hcap : p0.total_patients < M) :
    ∀ j p q, l.get? j = some p → (modifyIdx l i add_patient).get? j = some q → PhysLe M p q := by
  intro j p q hp hq
  by_cases hij : j = i
  · subst hij
    have hpq : q = add_patient p := by
      rw [get?_modifyIdx_self l j add_patient p hp] at hq
      exact (Option.some_inj.mp hq).symm
    have hpe : p = p0 := Option.some_inj.mp (hp.symm.trans hg)
    subst hpq
    refine ⟨rfl, rfl, rfl, rfl, rfl, rfl, rfl, ?_, ?_, le_refl _⟩
    · simp only [add_patient]
      omega
    · simp only [add_patient]
      have hc : p.total_patients < M := by rw [hpe]; exact hcap
      exact le_trans (by omega) (le_max_right p.total_patients M)
  · rw [get?_modifyIdx_ne l i add_patient j hij, hp] at hq
    cases hq
    exact physLe_refl M p

theorem rel_modify_add_sd {M : Int} {l : List Physician} {i : Nat} :
    ∀ j p q, l.get? j = some p → (modifyIdx l i add_step_down).get? j = some q → PhysLe M p q := by
  intro j p q hp hq
  by_cases hij : j = i
  · subst hij
    rw [get?_modifyIdx_self l j add_step_down p hp] at hq
    cases hq
    refine ⟨rfl, rfl, rfl, rfl, rfl, rfl, rfl, le_refl _, le_max_left _ _, ?_⟩
    simp [add_step_down]
  · rw [get?_modifyIdx_ne l i add_step_down j hij, hp] at hq
    cases hq
    exact physLe_refl M p

theorem evolves_allocFromA {M : Int} {s : AllocState} {i : Nat} {p : Physician}
    (hg : s.physicians.get? i = some p) (hcap : p.total_patients < M)
    (hpool : 0 < s.n_A_new_patients) : Evolves M s (allocFromA s i) := by
  refine ⟨modifyIdx_length _ _ _, rel_modify_add_patient hg hcap, ?_, ?_, ?_, ?_, ?_, ?_, ?_⟩ <;>
    simp [allocFromA, sumTotal_modify_add s.physicians i p hg,
      sumSD_modify_add s.physicians i p hg] <;> omega

theorem evolves_allocFromB {M : Int} {s : AllocState} {i : Nat} {p : Physician}
    (hg : s.physicians.get? i = some p) (hcap : p.total_patients < M)
    (hpool : 0 < s.n_B_new_patients) : Evolves M s (allocFromB s i) := by
  refine ⟨modifyIdx_length _ _ _, rel_modify_add_patient hg hcap, ?_, ?_, ?_, ?_, ?_, ?_, ?_⟩ <;>
    simp [allocFromB, sumTotal_modify_add s.physicians i p hg,
      sumSD_modify_add s.physicians i p hg] <;> omega

theorem evolves_allocFromN {M : Int} {s : AllocState} {i : Nat} {p : Physician}
    (hg : s.physicians.get? i = some p) (hcap : p.total_patients < M)
    (hpool : 0 < s.n_N_new_patients) : Evolves M s (allocFromN s i) := by
  refine ⟨modifyIdx_length _ _ _, rel_modify_add_patient hg hcap, ?_, ?_, ?_, ?_, ?_, ?_, ?_⟩ <;>
    simp [allocFromN, sumTotal_modify_add s.physicians i p hg,
      sumSD_modify_add s.physicians i p hg] <;> omega

theorem evolves_allocSD {M : Int} {s : AllocState} {i : Nat} {p : Physician}
    (hg : s.physicians.get? i = some p)
    (hpool : 0 < s.n_step_down_patients) : Evolves M s (allocSD s i) := by
  refine ⟨modifyIdx_length _ _ _, rel_modify_add_sd, ?_, ?_, ?_, ?_, ?_, ?_, ?_⟩ <;>
    simp [allocSD, sumTotal_modify_sd s.physicians i p hg,
      sumSD_modify_sd s.physicians i p hg] <;> omega

theorem evolves_allocTeam {M : Int} {s : AllocState} {i : Nat} {p : Physician} {t : String}
    (hg : s.physicians.get? i = some p) (hcap : p.total_patients < M)
    (hpool : 0 < teamPool s t) : Evolves M s (allocTeam t s i) := by
  unfold allocTeam
  unfold teamPool at hpool
  by_cases hA : (t == "A") = true
  · rw [if_pos hA] at hpool ⊢
    exact evolves_allocFromA hg hcap hpool
  · rw [if_neg hA] at hpool ⊢
    by_cases hB : (t == "B") = true
    · rw [if_pos hB] at hpool ⊢
      exact evolves_allocFromB hg hcap hpool
    · rw [if_neg hB] at hpool ⊢
      by_cases hN : (t == "N") = true
      · rw [if_pos hN] at hpool ⊢
        exact evolves_allocFromN hg hcap hpool
      · rw [if_neg hN] at hpool ⊢
        exact absurd hpool (by omega)

theorem evolves_foldl {M : Int} (step : AllocState → Nat → AllocState)
    (hstep : ∀ s i, Evolves M s (step s i)) (s : AllocState) (l : List Nat) :
    Evolves M s (l.foldl step s) := by
  induction l generalizing s with
  | nil => exact Evolves.refl M s
  | cons i rest ih => exact (hstep s i).trans (ih _)

theorem evolves_phase1Loop (M : Int) (snap : List Physician) (idxs : List Nat) :
    ∀ s : AllocState, Evolves M s (phase1Loop snap s idxs) := by
  induction idxs with
  | nil => intro s; exact Evolves.refl M s
  | cons i rest ih =>
    intro s
    rw [phase1Loop]
    split
    · exact Evolves.refl M s
    · next h1 =>
      split
      · exact ih s
      · next p hgi =>
        split
        · exact (evolves_allocSD hgi (by omega)).trans (ih _)
        · exact ih s

theorem evolves_phase1 (M : Int) (snap : List Physician) (s : AllocState) :
    Evolves M s (phase1 snap s) := by
  simp only [phase1]
  split
  · exact (evolves_phase1Loop M snap _ s).trans (evolves_phase1Loop M snap _ _)
  · exact evolves_phase1Loop M snap _ s

theorem evolves_phase2Inner (M : Int) (t : String) (i : Nat) (n : Nat) :
    ∀ s : AllocState, (n : Int) ≤ teamPool s t → Evolves M s (phase2Inner M t i s n) := by
  induction n with
  | zero => intro s _; exact Evolves.refl M s
  | succ n ih =>
    intro s hn
    rw [phase2Inner]
    split
    · exact Evolves.refl M s
    · next p hgi =>
      split
      · next hct =>
        have hpool : 0 < teamPool s t := by
          have : ((n : Int) + 1) ≤ teamPool s t := by push_cast at hn ⊢; omega
          omega
        have hstep := @evolves_allocTeam M s i p t hgi (by simpa [can_take_patient] using hct) hpool
        refine hstep.trans (ih _ ?_)
        have hdrop : teamPool (allocTeam t s i) t = teamPool s t - 1 := by
          unfold allocTeam teamPool
          by_cases hA : (t == "A") = true
          · simp [hA, allocFromA]
          · by_cases hB : (t == "B") = true
            · simp [hA, hB, allocFromB]
            · by_cases hN : (t == "N") = true
              · simp [hA, hB, hN, allocFromN]
              · exfalso
                unfold teamPool at hpool
                rw [if_neg hA, if_neg hB, if_neg hN] at hpool
                exact absurd hpool (by omega)
        rw [hdrop]
        push_cast at hn ⊢
        omega
      · exact Evolves.refl M s

theorem evolves_phase2Step (M minimum_patients : Int) (s : AllocState) (i : Nat) :
    Evolves M s (phase2Step minimum_patients M s i) := by
  rw [phase2Step]
  split
  · exact Evolves.refl M s
  · next p hgi =>
    split
    · exact Evolves.refl M s
    · split
      · dsimp only
        split
        · by_cases hA : (0 : Int) ≤ s.n_A_new_patients
          · refine evolves_phase2Inner M "A" i _ s ?_
            rw [teamPool, if_pos (by decide)]
            omega
          · rw [show ((minimum_patients - p.total_patients) ⊓ s.n_A_new_patients).toNat = 0 by omega]
            exact Evolves.refl M s
        · split
          · by_cases hB : (0 : Int) ≤ s.n_B_new_patients
            · refine evolves_phase2Inner M "B" i _ s ?_
              rw [teamPool, if_neg (by decide), if_pos (by decide)]
              omega
            · rw [show ((minimum_patients - p.total_patients) ⊓ s.n_B_new_patients).toNat = 0 by omega]
              exact Evolves.refl M s
          · split
            · by_cases hN : (0 : Int) ≤ s.n_N_new_patients
              · refine evolves_phase2Inner M "N" i _ s ?_
                rw [teamPool, if_neg (by decide), if_neg (by decide), if_pos (by decide)]
                omega
              · rw [show ((minimum_patients - p.total_patients) ⊓ s.n_N_new_patients).toNat = 0 by omega]
                exact Evolves.refl M s
            · exact Evolves.refl M s
      · exact Evolves.refl M s

theorem evolves_phase2 (M minimum_patients : Int) (s : AllocState) :
    Evolves M s (phase2 minimum_patients M s) :=
  evolves_foldl _ (fun s i => evolves_phase2Step M minimum_patients s i) s _

theorem evolves_phase3Loop (M : Int) (i : Nat) (n : Nat) :
    ∀ s : AllocState, Evolves M s (phase3Loop M i s n) := by
  induction n with
  | zero => intro s; exact Evolves.refl M s
  | succ n ih =>
    intro s
    rw [phase3Loop]
    split
    · exact Evolves.refl M s
    · next p hgi =>
      split
      · next hct =>
        have hcap : p.total_patients < M := by simpa [can_take_patient] using hct
        split
        · next h => exact (evolves_allocFromA hgi hcap (by
            rcases Bool.and_eq_true_iff.mp h with ⟨-, h2⟩
            simpa using of_decide_eq_true h2)).trans (ih _)
        · split
          · next h => exact (evolves_allocFromB hgi hcap (by
              rcases Bool.and_eq_true_iff.mp h with ⟨-, h2⟩
              simpa using of_decide_eq_true h2)).trans (ih _)
          · split
            · next h => exact (evolves_allocFromN hgi hcap (by
                rcases Bool.and_eq_true_iff.mp h with ⟨-, h2⟩
                simpa using of_decide_eq_true h2)).trans (ih _)
            · split
              · next h => exact (evolves_allocFromA hgi hcap (by simpa using h)).trans (ih _)
              · split
                · next h => exact (evolves_allocFromB hgi hcap (by simpa using h)).trans (ih _)
                · split
                  · next h => exact (evolves_allocFromN hgi hcap (by simpa using h)).trans (ih _)
                  · exact Evolves.refl M s
      · exact Evolves.refl M s

theorem evolves_phase3Step (M new_start_number : Int) (s : AllocState) (i : Nat) :
    Evolves M s (phase3Step new_start_number M s i) := by
  rw [phase3Step]
  split
  · exact Evolves.refl M s
  · split
    · exact evolves_phase3Loop M i _ s
    · exact Evolves.refl M s

theorem evolves_phase3 (M new_start_number : Int) (s : AllocState) :
    Evolves M s (phase3 new_start_number M s) :=
  evolves_foldl _ (fun s i => evolves_phase3Step M new_start_number s i) s _

theorem evolves_nLoop (M : Int) (idxs : List Nat) :
    ∀ s : AllocState, Evolves M s (nLoop M s idxs) := by
  induction idxs with
  | nil => intro s; exact Evolves.refl M s
  | cons i rest ih =>
    intro s
    rw [nLoop]
    split
    · exact Evolves.refl M s
    · next h1 =>
      split
      · exact ih s
      · next p hgi =>
        split
        · next hct =>
          exact (evolves_allocFromN hgi (by simpa [can_take_patient] using hct)
            (by omega)).trans (ih _)
        · exact ih s

theorem evolves_crossPool (M target gain : Int) (p : Physician) (s : AllocState) (i : Nat)
    (hgi : s.physicians.get? i = some p) :
    Evolves M s (crossPool M target gain p s i).1 := by
  rw [crossPool]
  split
  · next hcond =>
    have hcap : p.total_patients < M := by
      rcases Bool.and_eq_true_iff.mp hcond with ⟨-, h2⟩
      simpa [can_take_patient] using h2
    try dsimp only
    split
    · split
      · next h =>
        refine evolves_allocFromA hgi hcap ?_
        rcases Bool.and_eq_true_iff.mp h with ⟨h1, -⟩
        simpa using of_decide_eq_true h1
      · split
        · next h =>
          refine evolves_allocFromB hgi hcap ?_
          rcases Bool.and_eq_true_iff.mp h with ⟨h1, -⟩
          simpa using of_decide_eq_true h1
        · split
          · next h =>
            refine evolves_allocFromN hgi hcap ?_
            rcases Bool.and_eq_true_iff.mp h with ⟨h1, -⟩
            simpa using of_decide_eq_true h1
          · exact Evolves.refl M s
    · exact Evolves.refl M s
  · exact Evolves.refl M s

theorem evolves_distStep (M : Int) (snap : List Physician) (ttg : String → Int)
    (s : AllocState) (i : Nat) : Evolves M s (distStep snap M ttg s i).1 := by
  rw [distStep]
  split
  · exact Evolves.refl M s
  · next p hgi =>
    split
    · exact Evolves.refl M s
    · try dsimp only
      split
      · exact Evolves.refl M s
      · next hneed =>
        have hcap : p.total_patients < M := by
          rw [Bool.or_eq_true] at hneed
          push_neg at hneed
          rcases hneed with ⟨-, h2⟩
          cases hb : can_take_patient M p with
          | false => exact absurd (by rw [hb]; rfl) h2
          | true => simpa [can_take_patient] using hb
        split
        · next h =>
          split
          · exact evolves_allocFromA hgi hcap (by
              rcases Bool.and_eq_true_iff.mp h with ⟨-, h2⟩
              simpa using of_decide_eq_true h2)
          · exact evolves_crossPool M _ _ p s i hgi
        · split
          · next h =>
            split
            · exact evolves_allocFromB hgi hcap (by
                rcases Bool.and_eq_true_iff.mp h with ⟨-, h2⟩
                simpa using of_decide_eq_true h2)
            · exact evolves_crossPool M _ _ p s i hgi
          · split
            · next h =>
              split
              · exact evolves_allocFromN hgi hcap (by
                  rcases Bool.and_eq_true_iff.mp h with ⟨-, h2⟩
                  simpa using of_decide_eq_true h2)
              · exact evolves_crossPool M _ _ p s i hgi
            · exact evolves_crossPool M _ _ p s i hgi

theorem evolves_distFold (M : Int) (snap : List Physician) (ttg : String → Int)
    (ps : List Nat) :
    ∀ a : AllocState × Bool,
      Evolves M a.1 ((ps.foldl (fun acc i => ((distStep snap M ttg acc.1 i).1,
        acc.2 || (distStep snap M ttg acc.1 i).2)) a).1) := by
  induction ps with
  | nil => intro a; exact Evolves.refl M a.1
  | cons i rest ih =>
    intro a
    rw [List.foldl_cons]
    exact (evolves_distStep M snap ttg a.1 i).trans
      (ih ((distStep snap M ttg a.1 i).1, a.2 || (distStep snap M ttg a.1 i).2))

theorem evolves_distPass (M : Int) (snap : List Physician) (ttg : String → Int)
    (ps : List Nat) (s : AllocState) : Evolves M s (distPass snap M ttg ps s).1 := by
  rw [distPass]
  exact evolves_distFold M snap ttg ps (s, false)

theorem evolves_distLoop (M : Int) (snap : List Physician) (ttg : String → Int)
    (ps : List Nat) (fuel : Nat) :
    ∀ s : AllocState, Evolves M s (distLoop snap M ttg ps fuel s) := by
  induction fuel with
  | zero => intro s; exact Evolves.refl M s
  | succ n ih =>
    intro s
    rw [distLoop]
    split
    · try dsimp only
      split
      · exact (evolves_distPass M snap ttg ps s).trans (ih _)
      · exact evolves_distPass M snap ttg ps s
    · exact Evolves.refl M s

theorem evolves_finalStep (M : Int) (snap : List Physician) (ttg : String → Int)
    (a : AllocState × Int) (i : Nat) : Evolves M a.1 (finalStep snap M ttg a i).1 := by
  rw [finalStep]
  try dsimp only
  split
  · exact Evolves.refl M a.1
  · next p hgi =>
    split
    · exact Evolves.refl M a.1
    · split
      · exact Evolves.refl M a.1
      · try dsimp only
        split
        · exact Evolves.refl M a.1
        · next hneed =>
          have hcap : p.total_patients < M := by
            rw [Bool.or_eq_true] at hneed
            push_neg at hneed
            rcases hneed with ⟨-, h2⟩
            cases hb : can_take_patient M p with
            | false => exact absurd (by rw [hb]; rfl) h2
            | true => simpa [can_take_patient] using hb
          split
          · next h =>
            exact evolves_allocFromA hgi hcap (by
              rcases Bool.and_eq_true_iff.mp h with ⟨h1, -⟩
              simpa using of_decide_eq_true h1)
          · split
            · next h =>
              exact evolves_allocFromB hgi hcap (by
                rcases Bool.and_eq_true_iff.mp h with ⟨h1, -⟩
                simpa using of_decide_eq_true h1)
            · split
              · next h =>
                exact evolves_allocFromN hgi hcap (by
                  rcases Bool.and_eq_true_iff.mp h with ⟨h1, -⟩
                  simpa using of_decide_eq_true h1)
              · exact Evolves.refl M a.1

theorem evolves_finalFold (M : Int) (snap : List Physician) (ttg : String → Int)
    (ps : List Nat) :
    ∀ a : AllocState × Int, Evolves M a.1 ((ps.foldl (finalStep snap M ttg) a).1) := by
  induction ps with
  | nil => intro a; exact Evolves.refl M a.1
  | cons i rest ih =>
    intro a
    rw [List.foldl_cons]
    exact (evolves_finalStep M snap ttg a i).trans (ih _)

theorem evolves_finalLoop (M : Int) (snap : List Physician) (ttg : String → Int)
    (s : AllocState) (ps : List Nat) (remFinal : Int) :
    Evolves M s (finalLoop snap M ttg s ps remFinal) := by
  rw [finalLoop]
  exact evolves_finalFold M snap ttg ps (s, remFinal)

theorem evolves_phase4 (M : Int) (snap : List Physician) (s : AllocState) :
    Evolves M s (phase4 snap M s) := by
  rw [phase4]
  dsimp only
  repeat' split
  all_goals
    first
      | exact ((evolves_nLoop M _ s).trans (evolves_distLoop M snap _ _ _ _)).trans
          (evolves_finalLoop M snap _ _ _ _)
      | exact (evolves_nLoop M _ s).trans (evolves_distLoop M snap _ _ _ _)
      | exact evolves_nLoop M _ s
      | exact (evolves_distLoop M snap _ _ _ s).trans (evolves_finalLoop M snap _ _ _ _)
      | exact evolves_distLoop M snap _ _ _ s
      | exact Evolves.refl M s

/-! Pointwise lemmas: which indices and fields each operation can touch. -/

theorem get?_modifyIdx (l : List Physician) (i : Nat) (f : Physician → Physician) (j : Nat) :
    (modifyIdx l i f).get? j = if j = i then (l.get? j).map f else l.get? j := by
  by_cases hij : j = i
  · subst hij
    rw [if_pos rfl]
    cases hg : l.get? j with
    | none =>
      simp only [Option.map_none']
      induction l generalizing j with
      | nil => rfl
      | cons q rest ih =>
        cases j with
        | zero => simp [List.get?] at hg
        | succ n =>
          simp only [List.get?] at hg
          simpa [modifyIdx] using ih n hg
    | some p => simpa using get?_modifyIdx_self l j f p hg
  · rw [if_neg hij]
    exact get?_modifyIdx_ne l i f j hij

theorem Evolves.rel_of_get {M : Int} {s s' : AllocState} (ev : Evolves M s s') {j : Nat}
    {p : Physician} (h : s.physicians.get? j = some p) :
    ∃ q, s'.physicians.get? j = some q ∧ PhysLe M p q := by
  have hj : j < s.physicians.length := by
    obtain ⟨hj, -⟩ := List.get?_eq_some.mp h
    exact hj
  have hj' : j < s'.physicians.length := by
    have := ev.len_eq
    omega
  exact ⟨_, List.get?_eq_get hj', ev.rel j p _ h (List.get?_eq_get hj')⟩

theorem totAt_modify_sd (l : List Physician) (i j : Nat) :
    totAt (modifyIdx l i add_step_down) j = totAt l j := by
  unfold totAt
  rw [get?_modifyIdx]
  by_cases hij : j = i
  · rw [if_pos hij]
    cases l.get? j <;> simp [add_step_down]
  · rw [if_neg hij]

theorem sdAt_modify_add (l : List Physician) (i j : Nat) :
    sdAt (modifyIdx l i add_patient) j = sdAt l j := by
  unfold sdAt
  rw [get?_modifyIdx]
  by_cases hij : j = i
  · rw [if_pos hij]
    cases l.get? j <;> simp [add_patient]
  · rw [if_neg hij]

theorem sdAt_modify_sd_ne (l : List Physician) (i j : Nat) (hij : j ≠ i) :
    sdAt (modifyIdx l i add_step_down) j = sdAt l j := by
  unfold sdAt
  rw [get?_modifyIdx, if_neg hij]

theorem mem_workingIdxs {l : List Physician} {t : String} {i : Nat}
    (h : i ∈ workingIdxs l t) :
    ∃ p, l.get? i = some p ∧ p.team = t ∧ p.is_working = true := by
  unfold workingIdxs at h
  rw [List.mem_filter] at h
  obtain ⟨-, hpred⟩ := h
  cases hg : l.get? i with
  | none => rw [hg] at hpred; simp at hpred
  | some p =>
    rw [hg] at hpred
    simp only [Bool.and_eq_true, beq_iff_eq] at hpred
    exact ⟨p, rfl, hpred.1, hpred.2⟩

theorem workingIdxs_nodup (l : List Physician) (t : String) : (workingIdxs l t).Nodup :=
  List.Nodup.filter _ (List.nodup_range _)

theorem sdAt_modify_sd_self (l : List Physician) (i : Nat) (p : Physician)
    (h : l.get? i = some p) :
    sdAt (modifyIdx l i add_step_down) i = sdAt l i + 1 := by
  unfold sdAt
  rw [get?_modifyIdx, if_pos rfl, h]
  simp [add_step_down]

theorem phase1Loop_totAt (snap : List Physician) (idxs : List Nat) :
    ∀ s j, totAt (phase1Loop snap s idxs).physicians j = totAt s.physicians j := by
  induction idxs with
  | nil => intro s j; rfl
  | cons i rest ih =>
    intro s j
    rw [phase1Loop]
    split
    · rfl
    · split
      · exact ih s j
      · split
        · rw [ih _ j]
          exact totAt_modify_sd s.physicians i j
        · exact ih s j

theorem phase1_totAt (snap : List Physician) (s : AllocState) (j : Nat) :
    totAt (phase1 snap s).physicians j = totAt s.physicians j := by
  rw [phase1]
  dsimp only
  split
  · rw [phase1Loop_totAt, phase1Loop_totAt]
  · rw [phase1Loop_totAt]

theorem phase1Loop_sdAt_bound (snap : List Physician) (idxs : List Nat) (hnd : idxs.Nodup) :
    ∀ s j, sdAt (phase1Loop snap s idxs).physicians j ≤
      sdAt s.physicians j + (if j ∈ idxs then 1 else 0) := by
  induction idxs with
  | nil =>
    intro s j
    rw [phase1Loop]
    simp
  | cons i rest ih =>
    intro s j
    have hnr : rest.Nodup := hnd.of_cons
    have hpos : (0 : Int) ≤ if j ∈ i :: rest then 1 else 0 := by split <;> omega
    rw [phase1Loop]
    split
    · omega
    · split
      · next hnone =>
        refine le_trans (ih hnr s j) ?_
        by_cases hjr : j ∈ rest
        · rw [if_pos hjr, if_pos (List.mem_cons_of_mem i hjr)]
        · rw [if_neg hjr]
          omega
      · next p hgi =>
        split
        · refine le_trans (ih hnr _ j) ?_
          by_cases hij : j = i
          · subst hij
            have hjr : j ∉ rest := by
              intro hc
              exact (List.nodup_cons.mp hnd).1 hc
            rw [if_neg hjr, if_pos (List.mem_cons_self j rest)]
            have : sdAt (allocSD s j).physicians j = sdAt s.physicians j + 1 :=
              sdAt_modify_sd_self s.physicians j p hgi
            omega
          · have : sdAt (allocSD s i).physicians j = sdAt s.physicians j :=
              sdAt_modify_sd_ne s.physicians i j hij
            by_cases hjr : j ∈ rest
            · rw [if_pos hjr, if_pos (List.mem_cons_of_mem i hjr)]
              omega
            · rw [if_neg hjr]
              omega
        · refine le_trans (ih hnr s j) ?_
          by_cases hjr : j ∈ rest
          · rw [if_pos hjr, if_pos (List.mem_cons_of_mem i hjr)]
          · rw [if_neg hjr]
            omega

theorem phase1_sdAt_bound (snap : List Physician) (s : AllocState) (j : Nat) :
    sdAt (phase1 snap s).physicians j ≤ sdAt s.physicians j + 1 := by
  rw [phase1]
  dsimp only
  have hndB : (sortByLt (fun i j => sdKey snap s.physicians i < sdKey snap s.physicians j)
      (workingIdxs s.physicians "B")).Nodup :=
    sortByLt_nodup (workingIdxs_nodup s.physicians "B")
  have hB := phase1Loop_sdAt_bound snap _ hndB s j
  split
  · next hpool =>
    set s1 := phase1Loop snap s (sortByLt
      (fun i j => sdKey snap s.physicians i < sdKey snap s.physicians j)
      (workingIdxs s.physicians "B")) with hs1
    have hndA : (sortByLt (fun i j => sdKey snap s1.physicians i < sdKey snap s1.physicians j)
        (workingIdxs s.physicians "A")).Nodup :=
      sortByLt_nodup (workingIdxs_nodup s.physicians "A")
    have hA := phase1Loop_sdAt_bound snap _ hndA s1 j
    by_cases hmB : j ∈ sortByLt (fun i j => sdKey snap s.physicians i < sdKey snap s.physicians j)
        (workingIdxs s.physicians "B")
    · have hmA : j ∉ sortByLt (fun i j => sdKey snap s1.physicians i < sdKey snap s1.physicians j)
          (workingIdxs s.physicians "A") := by
        intro hc
        obtain ⟨p, hp, hpt, -⟩ := mem_workingIdxs (mem_sortByLt.mp hmB)
        obtain ⟨q, hq, hqt, -⟩ := mem_workingIdxs (mem_sortByLt.mp hc)
        rw [hp] at hq
        cases hq
        rw [hpt] at hqt
        exact absurd hqt (by decide)
      rw [if_pos hmB] at hB
      rw [if_neg hmA] at hA
      omega
    · rw [if_neg hmB] at hB
      by_cases hmA : j ∈ sortByLt (fun i j => sdKey snap s1.physicians i < sdKey snap s1.physicians j)
          (workingIdxs s.physicians "A")
      · rw [if_pos hmA] at hA
        omega
      · rw [if_neg hmA] at hA
        omega
  · by_cases hmB : j ∈ sortByLt (fun i j => sdKey snap s.physicians i < sdKey snap s.physicians j)
        (workingIdxs s.physicians "B")
    · rw [if_pos hmB] at hB
      omega
    · rw [if_neg hmB] at hB
      omega

theorem sdAt_allocTeam (t : String) (s : AllocState) (i j : Nat) :
    sdAt (allocTeam t s i).physicians j = sdAt s.physicians j := by
  unfold allocTeam
  split
  · exact sdAt_modify_add s.physicians i j
  · split
    · exact sdAt_modify_add s.physicians i j
    · split
      · exact sdAt_modify_add s.physicians i j
      · rfl

theorem get?_allocTeam_ne (t : String) (s : AllocState) (i j : Nat) (hij : j ≠ i) :
    (allocTeam t s i).physicians.get? j = s.physicians.get? j := by
  unfold allocTeam
  split
  · exact get?_modifyIdx_ne s.physicians i add_patient j hij
  · split
    · exact get?_modifyIdx_ne s.physicians i add_patient j hij
    · split
      · exact get?_modifyIdx_ne s.physicians i add_patient j hij
      · rfl

theorem phase2Inner_get?_ne (M : Int) (t : String) (i : Nat) (n : Nat) :
    ∀ s j, j ≠ i → (phase2Inner M t i s n).physicians.get? j = s.physicians.get? j := by
  induction n with
  | zero => intro s j _; rfl
  | succ n ih =>
    intro s j hij
    rw [phase2Inner]
    split
    · rfl
    · split
      · rw [ih _ j hij, get?_allocTeam_ne t s i j hij]
      · rfl

theorem phase2Inner_sdAt (M : Int) (t : String) (i : Nat) (n : Nat) :
    ∀ s j, sdAt (phase2Inner M t i s n).physicians j = sdAt s.physicians j := by
  induction n with
  | zero => intro s j; rfl
  | succ n ih =>
    intro s j
    rw [phase2Inner]
    split
    · rfl
    · split
      · rw [ih _ j, sdAt_allocTeam]
      · rfl

theorem phase2Step_sdAt (M minimum_patients : Int) (s : AllocState) (i j : Nat) :
    sdAt (phase2Step minimum_patients M s i).physicians j = sdAt s.physicians j := by
  rw [phase2Step]
  split
  · rfl
  · split
    · rfl
    · split
      · dsimp only
        split
        · rw [phase2Inner_sdAt]
        · split
          · rw [phase2Inner_sdAt]
          · split
            · rw [phase2Inner_sdAt]
            · rfl
      · rfl

theorem sdAt_foldl (step : AllocState → Nat → AllocState)
    (h : ∀ s i j, sdAt (step s i).physicians j = sdAt s.physicians j) (l : List Nat) :
    ∀ s j, sdAt (l.foldl step s).physicians j = sdAt s.physicians j := by
  induction l with
  | nil => intro s j; rfl
  | cons i rest ih =>
    intro s j
    rw [List.foldl_cons, ih, h]

theorem phase2_sdAt (M minimum_patients : Int) (s : AllocState) (j : Nat) :
    sdAt (phase2 minimum_patients M s).physicians j = sdAt s.physicians j := by
  rw [phase2]
  exact sdAt_foldl _ (fun s i j => phase2Step_sdAt M minimum_patients s i j) _ s j

theorem phase3Loop_get?_ne (M : Int) (i : Nat) (n : Nat) :
    ∀ s j, j ≠ i → (phase3Loop M i s n).physicians.get? j = s.physicians.get? j := by
  induction n with
  | zero => intro s j _; rfl
  | succ n ih =>
    intro s j hij
    rw [phase3Loop]
    split
    · rfl
    · split
      · split
        · rw [ih _ j hij]; exact get?_modifyIdx_ne s.physicians i add_patient j hij
        · split
          · rw [ih _ j hij]; exact get?_modifyIdx_ne s.physicians i add_patient j hij
          · split
            · rw [ih _ j hij]; exact get?_modifyIdx_ne s.physicians i add_patient j hij
            · split
              · rw [ih _ j hij]; exact get?_modifyIdx_ne s.physicians i add_patient j hij
              · split
                · rw [ih _ j hij]; exact get?_modifyIdx_ne s.physicians i add_patient j hij
                · split
                  · rw [ih _ j hij]; exact get?_modifyIdx_ne s.physicians i add_patient j hij
                  · rfl
      · rfl

theorem phase3Loop_sdAt (M : Int) (i : Nat) (n : Nat) :
    ∀ s j, sdAt (phase3Loop M i s n).physicians j = sdAt s.physicians j := by
  induction n with
  | zero => intro s j; rfl
  | succ n ih =>
    intro s j
    rw [phase3Loop]
    split
    · rfl
    · split
      · split
        · rw [ih _ j]; exact sdAt_modify_add s.physicians i j
        · split
          · rw [ih _ j]; exact sdAt_modify_add s.physicians i j
          · split
            · rw [ih _ j]; exact sdAt_modify_add s.physicians i j
            · split
              · rw [ih _ j]; exact sdAt_modify_add s.physicians i j
              · split
                · rw [ih _ j]; exact sdAt_modify_add s.physicians i j
                · split
                  · rw [ih _ j]; exact sdAt_modify_add s.physicians i j
                  · rfl
      · rfl

theorem phase3Step_sdAt (M new_start_number : Int) (s : AllocState) (i j : Nat) :
    sdAt (phase3Step new_start_number M s i).physicians j = sdAt s.physicians j := by
  rw [phase3Step]
  split
  · rfl
  · split
    · rw [phase3Loop_sdAt]
    · rfl

theorem phase3_sdAt (M new_start_number : Int) (s : AllocState) (j : Nat) :
    sdAt (phase3 new_start_number M s).physicians j = sdAt s.physicians j := by
  rw [phase3]
  exact sdAt_foldl _ (fun s i j => phase3Step_sdAt M new_start_number s i j) _ s j

theorem phase3Step_get?_ne (M new_start_number : Int) (s : AllocState) (i j : Nat)
    (hij : j ≠ i) :
    (phase3Step new_start_number M s i).physicians.get? j = s.physicians.get? j := by
  rw [phase3Step]
  split
  · rfl
  · split
    · rw [phase3Loop_get?_ne M i _ s j hij]
    · rfl

theorem nLoop_sdAt (M : Int) (idxs : List Nat) :
    ∀ s j, sdAt (nLoop M s idxs).physicians j = sdAt s.physicians j := by
  induction idxs with
  | nil => intro s j; rfl
  | cons i rest ih =>
    intro s j
    rw [nLoop]
    split
    · rfl
    · split
      · exact ih s j
      · split
        · rw [ih _ j]; exact sdAt_modify_add s.physicians i j
        · exact ih s j

theorem nLoop_get?_notMem (M : Int) (idxs : List Nat) :
    ∀ s j, j ∉ idxs → (nLoop M s idxs).physicians.get? j = s.physicians.get? j := by
  induction idxs with
  | nil => intro s j _; rfl
  | cons i rest ih =>
    intro s j hj
    have hji : j ≠ i := fun hc => hj (hc ▸ List.mem_cons_self i rest)
    have hjr : j ∉ rest := fun hc => hj (List.mem_cons_of_mem i hc)
    rw [nLoop]
    split
    · rfl
    · split
      · exact ih s j hjr
      · split
        · rw [ih _ j hjr]; exact get?_modifyIdx_ne s.physicians i add_patient j hji
        · exact ih s j hjr

theorem crossPool_sdAt (M target gain : Int) (p : Physician) (s : AllocState) (i j : Nat) :
    sdAt (crossPool M target gain p s i).1.physicians j = sdAt s.physicians j := by
  rw [crossPool]
  split
  · try dsimp only
    split
    · split
      · exact sdAt_modify_add s.physicians i j
      · split
        · exact sdAt_modify_add s.physicians i j
        · split
          · exact sdAt_modify_add s.physicians i j
          · rfl
    · rfl
  · rfl

theorem crossPool_get?_ne (M target gain : Int) (p : Physician) (s : AllocState) (i j : Nat)
    (hij : j ≠ i) :
    (crossPool M target gain p s i).1.physicians.get? j = s.physicians.get? j := by
  rw [crossPool]
  split
  · try dsimp only
    split
    · split
      · exact get?_modifyIdx_ne s.physicians i add_patient j hij
      · split
        · exact get?_modifyIdx_ne s.physicians i add_patient j hij
        · split
          · exact get?_modifyIdx_ne s.physicians i add_patient j hij
          · rfl
    · rfl
  · rfl

theorem distStep_sdAt (snap : List Physician) (M : Int) (ttg : String → Int)
    (s : AllocState) (i j : Nat) :
    sdAt (distStep snap M ttg s i).1.physicians j = sdAt s.physicians j := by
  rw [distStep]
  split
  · rfl
  · split
    · rfl
    · try dsimp only
      split
      · rfl
      · split
        · split
          · exact sdAt_modify_add s.physicians i j
          · exact crossPool_sdAt M _ _ _ s i j
        · split
          · split
            · exact sdAt_modify_add s.physicians i j
            · exact crossPool_sdAt M _ _ _ s i j
          · split
            · split
              · exact sdAt_modify_add s.physicians i j
              · exact crossPool_sdAt M _ _ _ s i j
            · exact crossPool_sdAt M _ _ _ s i j

theorem distStep_get?_ne (snap : List Physician) (M : Int) (ttg : String → Int)
    (s : AllocState) (i j : Nat) (hij : j ≠ i) :
    (distStep snap M ttg s i).1.physicians.get? j = s.physicians.get? j := by
  rw [distStep]
  split
  · rfl
  · split
    · rfl
    · try dsimp only
      split
      · rfl
      · split
        · split
          · exact get?_modifyIdx_ne s.physicians i add_patient j hij
          · exact crossPool_get?_ne M _ _ _ s i j hij
        · split
          · split
            · exact get?_modifyIdx_ne s.physicians i add_patient j hij
            · exact crossPool_get?_ne M _ _ _ s i j hij
          · split
            · split
              · exact get?_modifyIdx_ne s.physicians i add_patient j hij
              · exact crossPool_get?_ne M _ _ _ s i j hij
            · exact crossPool_get?_ne M _ _ _ s i j hij

theorem distFold_sdAt (snap : List Physician) (M : Int) (ttg : String → Int) (ps : List Nat) :
    ∀ (a : AllocState × Bool) (j : Nat),
      sdAt ((ps.foldl (fun acc i => ((distStep snap M ttg acc.1 i).1,
        acc.2 || (distStep snap M ttg acc.1 i).2)) a).1).physicians j = sdAt a.1.physicians j := by
  induction ps with
  | nil => intro a j; rfl
  | cons i rest ih =>
    intro a j
    rw [List.foldl_cons, ih]
    exact distStep_sdAt snap M ttg a.1 i j

theorem distLoop_sdAt (snap : List Physician) (M : Int) (ttg : String → Int)
    (ps : List Nat) (fuel : Nat) :
    ∀ s j, sdAt (distLoop snap M ttg ps fuel s).physicians j = sdAt s.physicians j := by
  induction fuel with
  | zero => intro s j; rfl
  | succ n ih =>
    intro s j
    rw [distLoop]
    split
    · try dsimp only
      split
      · rw [ih, distPass, distFold_sdAt]
      · rw [distPass, distFold_sdAt]
    · rfl

theorem finalStep_sdAt (snap : List Physician) (M : Int) (ttg : String → Int)
    (a : AllocState × Int) (i j : Nat) :
    sdAt (finalStep snap M ttg a i).1.physicians j = sdAt a.1.physicians j := by
  rw [finalStep]
  try dsimp only
  split
  · rfl
  · split
    · rfl
    · split
      · rfl
      · try dsimp only
        split
        · rfl
        · split
          · exact sdAt_modify_add a.1.physicians i j
          · split
            · exact sdAt_modify_add a.1.physicians i j
            · split
              · exact sdAt_modify_add a.1.physicians i j
              · rfl

theorem finalFold_sdAt (snap : List Physician) (M : Int) (ttg : String → Int) (ps : List Nat) :
    ∀ (a : AllocState × Int) (j : Nat),
      sdAt ((ps.foldl (finalStep snap M ttg) a).1).physicians j = sdAt a.1.physicians j := by
  induction ps with
  | nil => intro a j; rfl
  | cons i rest ih =>
    intro a j
    rw [List.foldl_cons, ih]
    exact finalStep_sdAt snap M ttg a i j

theorem finalLoop_sdAt (snap : List Physician) (M : Int) (ttg : String → Int)
    (s : AllocState) (ps : List Nat) (remFinal : Int) (j : Nat) :
    sdAt (finalLoop snap M ttg s ps remFinal).physicians j = sdAt s.physicians j := by
  rw [finalLoop]
  exact finalFold_sdAt snap M ttg ps (s, remFinal) j

theorem phase4_sdAt (snap : List Physician) (M : Int) (s : AllocState) (j : Nat) :
    sdAt (phase4 snap M s).physicians j = sdAt s.physicians j := by
  rw [phase4]
  dsimp only
  repeat' split
  all_goals
    first
      | rw [finalLoop_sdAt, distLoop_sdAt, nLoop_sdAt]
      | rw [distLoop_sdAt, nLoop_sdAt]
      | rw [nLoop_sdAt]
      | rw [finalLoop_sdAt, distLoop_sdAt]
      | rw [distLoop_sdAt]
      | rfl

/-- The physician at index `j` exists and is flagged new. -/
def newAt (l : List Physician) (j : Nat) : Prop :=
  ∃ p, l.get? j = some p ∧ p.is_new = true

theorem totAt_congr {l l' : List Physician} {j : Nat} (h : l'.get? j = l.get? j) :
    totAt l' j = totAt l j := by
  unfold totAt
  rw [h]

theorem newAt_of_evolves {M : Int} {s s' : AllocState} (ev : Evolves M s s') {j : Nat}
    (hn : newAt s.physicians j) : newAt s'.physicians j := by
  obtain ⟨p, hp, hpn⟩ := hn
  obtain ⟨q, hq, hrel⟩ := ev.rel_of_get hp
  exact ⟨q, hq, hrel.new_eq.trans hpn⟩

theorem phase2Step_totAt_new (M minimum_patients : Int) (s : AllocState) (i j : Nat)
    (hn : newAt s.physicians j) :
    totAt (phase2Step minimum_patients M s i).physicians j = totAt s.physicians j := by
  by_cases hij : j = i
  · subst hij
    rw [phase2Step]
    split
    · rfl
    · next p hgi =>
      obtain ⟨q, hq, hqn⟩ := hn
      rw [hgi] at hq
      cases hq
      split
      · rfl
      · next hnew => exact absurd hqn hnew
  · rw [phase2Step]
    split
    · rfl
    · split
      · rfl
      · split
        · dsimp only
          split
          · exact totAt_congr (phase2Inner_get?_ne M "A" i _ s j hij)
          · split
            · exact totAt_congr (phase2Inner_get?_ne M "B" i _ s j hij)
            · split
              · exact totAt_congr (phase2Inner_get?_ne M "N" i _ s j hij)
              · rfl
        · rfl

theorem phase2_fold_totAt_new (M minimum_patients : Int) (l : List Nat) :
    ∀ s j, newAt s.physicians j →
      totAt (l.foldl (phase2Step minimum_patients M) s).physicians j = totAt s.physicians j := by
  induction l with
  | nil => intro s j _; rfl
  | cons i rest ih =>
    intro s j hn
    rw [List.foldl_cons,
      ih _ j (newAt_of_evolves (evolves_phase2Step M minimum_patients s i) hn),
      phase2Step_totAt_new M minimum_patients s i j hn]

theorem phase2_totAt_new (M minimum_patients : Int) (s : AllocState) (j : Nat)
    (hn : newAt s.physicians j) :
    totAt (phase2 minimum_patients M s).physicians j = totAt s.physicians j := by
  rw [phase2]
  exact phase2_fold_totAt_new M minimum_patients _ s j hn

theorem phase3Step_totAt_frozen (M new_start_number : Int) (s : AllocState) (i j : Nat)
    (hge : new_start_number ≤ totAt s.physicians j) :
    totAt (phase3Step new_start_number M s i).physicians j = totAt s.physicians j := by
  by_cases hij : j = i
  · subst hij
    rw [phase3Step]
    split
    · rfl
    · next p hgi =>
      split
      · have ht : totAt s.physicians j = p.total_patients := by
          unfold totAt
          rw [hgi]
        have h0 : (new_start_number - p.total_patients).toNat = 0 := by omega
        rw [h0]
        rfl
      · rfl
  · rw [phase3Step]
    split
    · rfl
    · split
      · exact totAt_congr (phase3Loop_get?_ne M i _ s j hij)
      · rfl

theorem phase3_fold_totAt_frozen (M new_start_number : Int) (l : List Nat) :
    ∀ s j, new_start_number ≤ totAt s.physicians j →
      totAt (l.foldl (phase3Step new_start_number M) s).physicians j
        = totAt s.physicians j := by
  induction l with
  | nil => intro s j _; rfl
  | cons i rest ih =>
    intro s j hge
    have he := phase3Step_totAt_frozen M new_start_number s i j hge
    rw [List.foldl_cons, ih _ j (by rw [he]; exact hge), he]

theorem phase3_totAt_frozen (M new_start_number : Int) (s : AllocState) (j : Nat)
    (hge : new_start_number ≤ totAt s.physicians j) :
    totAt (phase3 new_start_number M s).physicians j = totAt s.physicians j := by
  rw [phase3]
  exact phase3_fold_totAt_frozen M new_start_number _ s j hge

theorem distStep_totAt_new {snap : List Physician} {M : Int} {ttg : String → Int}
    {s : AllocState} {i j : Nat} (hn : newAt s.physicians j) :
    totAt (distStep snap M ttg s i).1.physicians j = totAt s.physicians j := by
  by_cases hij : j = i
  · subst hij
    rw [distStep]
    split
    · rfl
    · next p hgi =>
      obtain ⟨q, hq, hqn⟩ := hn
      rw [hgi] at hq
      cases hq
      split
      · rfl
      · next hnew => exact absurd hqn hnew
  · exact totAt_congr (distStep_get?_ne snap M ttg s i j hij)

theorem distFold_totAt_new {snap : List Physician} {M : Int} {ttg : String → Int}
    (ps : List Nat) :
    ∀ (a : AllocState × Bool) (j : Nat), newAt a.1.physicians j →
      totAt ((ps.foldl (fun acc i => ((distStep snap M ttg acc.1 i).1,
        acc.2 || (distStep snap M ttg acc.1 i).2)) a).1).physicians j
        = totAt a.1.physicians j := by
  induction ps with
  | nil => intro a j _; rfl
  | cons i rest ih =>
    intro a j hn
    rw [List.foldl_cons]
    rw [ih ((distStep snap M ttg a.1 i).1, a.2 || (distStep snap M ttg a.1 i).2) j
      (newAt_of_evolves (evolves_distStep M snap ttg a.1 i) hn)]
    exact distStep_totAt_new hn

theorem distLoop_totAt_new {snap : List Physician} {M : Int} {ttg : String → Int}
    {ps : List Nat} {fuel : Nat} :
    ∀ {s : AllocState} {j : Nat}, newAt s.physicians j →
      totAt (distLoop snap M ttg ps fuel s).physicians j = totAt s.physicians j := by
  induction fuel with
  | zero => intro s j _; rfl
  | succ n ih =>
    intro s j hn
    rw [distLoop]
    split
    · try dsimp only
      split
      · rw [ih (newAt_of_evolves (evolves_distPass M snap ttg ps s) hn)]
        rw [distPass]
        exact distFold_totAt_new ps (s, false) j hn
      · rw [distPass]
        exact distFold_totAt_new ps (s, false) j hn
    · rfl

theorem finalStep_get?_ne (snap : List Physician) (M : Int) (ttg : String → Int)
    (a : AllocState × Int) (i j : Nat) (hij : j ≠ i) :
    (finalStep snap M ttg a i).1.physicians.get? j = a.1.physicians.get? j := by
  rw [finalStep]
  try dsimp only
  split
  · rfl
  · split
    · rfl
    · split
      · rfl
      · try dsimp only
        split
        · rfl
        · split
          · exact get?_modifyIdx_ne a.1.physicians i add_patient j hij
          · split
            · exact get?_modifyIdx_ne a.1.physicians i add_patient j hij
            · split
              · exact get?_modifyIdx_ne a.1.physicians i add_patient j hij
              · rfl

theorem finalStep_totAt_new {snap : List Physician} {M : Int} {ttg : String → Int}
    {a : AllocState × Int} {i j : Nat} (hn : newAt a.1.physicians j) :
    totAt (finalStep snap M ttg a i).1.physicians j = totAt a.1.physicians j := by
  by_cases hij : j = i
  · subst hij
    rw [finalStep]
    try dsimp only
    split
    · rfl
    · next p hgi =>
      obtain ⟨q, hq, hqn⟩ := hn
      rw [hgi] at hq
      cases hq
      split
      · rfl
      · next hnew => exact absurd hqn hnew
  · exact totAt_congr (finalStep_get?_ne snap M ttg a i j hij)

theorem finalFold_totAt_new {snap : List Physician} {M : Int} {ttg : String → Int}
    (ps : List Nat) :
    ∀ (a : AllocState × Int) (j : Nat), newAt a.1.physicians j →
      totAt ((ps.foldl (finalStep snap M ttg) a).1).physicians j = totAt a.1.physicians j := by
  induction ps with
  | nil => intro a j _; rfl
  | cons i rest ih =>
    intro a j hn
    rw [List.foldl_cons]
    rw [ih _ j (newAt_of_evolves (evolves_finalStep M snap ttg a i) hn)]
    exact finalStep_totAt_new hn

theorem finalLoop_totAt_new {snap : List Physician} {M : Int} {ttg : String → Int}
    {s : AllocState} {ps : List Nat} {remFinal : Int} {j : Nat}
    (hn : newAt s.physicians j) :
    totAt (finalLoop snap M ttg s ps remFinal).physicians j = totAt s.physicians j := by
  rw [finalLoop]
  exact finalFold_totAt_new ps (s, remFinal) j hn

theorem nLoop_totAt_newFilter {M : Int} {s : AllocState} {lt : Nat → Nat → Bool} {j : Nat}
    (hn : newAt s.physicians j) :
    totAt (nLoop M s (sortByLt lt ((List.range s.physicians.length).filter (fun i =>
      match s.physicians.get? i with
      | some p => p.team == "N" && !p.is_new && can_take_patient M p
      | none => false)))).physicians j = totAt s.physicians j := by
  refine totAt_congr (nLoop_get?_notMem M _ s j ?_)
  intro hc
  obtain ⟨p, hp, hpn⟩ := hn
  have hc2 := (List.mem_filter.mp (mem_sortByLt.mp hc)).2
  simp only [hp] at hc2
  simp [hpn] at hc2

theorem phase4_totAt_new (snap : List Physician) (M : Int) (s : AllocState) (j : Nat)
    (hn : newAt s.physicians j) :
    totAt (phase4 snap M s).physicians j = totAt s.physicians j := by
  rw [phase4]
  dsimp only
  repeat' split
  all_goals
    first
      | rfl
      | rw [finalLoop_totAt_new (newAt_of_evolves ((evolves_nLoop M _ _).trans
            (evolves_distLoop M snap _ _ _ _)) hn),
          distLoop_totAt_new (newAt_of_evolves (evolves_nLoop M _ _) hn),
          nLoop_totAt_newFilter hn]
      | rw [distLoop_totAt_new (newAt_of_evolves (evolves_nLoop M _ _) hn),
          nLoop_totAt_newFilter hn]
      | rw [nLoop_totAt_newFilter hn]
      | rw [finalLoop_totAt_new (newAt_of_evolves (evolves_distLoop M snap _ _ _ _) hn),
          distLoop_totAt_new hn]
      | rw [distLoop_totAt_new hn]

/-! Phase 5 lemmas. -/

theorem removeN_fields {k : Nat} :
    ∀ {p q : Physician}, removeN p k = some q →
      q.name = p.name ∧ q.team = p.team ∧ q.is_new = p.is_new ∧ q.is_buffer = p.is_buffer ∧
      q.is_working = p.is_working ∧ q.transferred_patients = p.transferred_patients ∧
      q.traded_patients = p.traded_patients ∧
      q.step_down_patients = p.step_down_patients := by
  induction k with
  | zero =>
    intro p q h
    rw [removeN] at h
    cases h
    exact ⟨rfl, rfl, rfl, rfl, rfl, rfl, rfl, rfl⟩
  | succ n ih =>
    intro p q h
    rw [removeN, remove_patient] at h
    by_cases hc : p.total_patients < 1
    · rw [if_pos hc] at h
      exact absurd h (by simp)
    · rw [if_neg hc] at h
      obtain ⟨f1, f2, f3, f4, f5, f6, f7, f8⟩ := ih h
      exact ⟨f1, f2, f3, f4, f5, f6, f7, f8⟩

theorem removeN_some {k : Nat} :
    ∀ {p : Physician}, (k : Int) ≤ p.total_patients → ∃ q, removeN p k = some q := by
  induction k with
  | zero => intro p _; exact ⟨p, rfl⟩
  | succ n ih =>
    intro p h
    rw [removeN, remove_patient]
    rw [if_neg (by push_cast at h; omega)]
    refine ih ?_
    push_cast at h
    show (n : Int) ≤ p.total_patients - 1
    omega

/-- What Phase 5 can do to the state, when it does not raise: pools are
untouched, identity fields and step-down counts are untouched, and
`total_patients` can only go down (the reversal). -/
structure P5 (s s' : AllocState) : Prop where
  len_eq : s'.physicians.length = s.physicians.length
  rel : ∀ j p q, s.physicians.get? j = some p → s'.physicians.get? j = some q →
    q.name = p.name ∧ q.team = p.team ∧ q.is_new = p.is_new ∧ q.is_buffer = p.is_buffer ∧
    q.is_working = p.is_working ∧ q.transferred_patients = p.transferred_patients ∧
    q.traded_patients = p.traded_patients ∧ q.step_down_patients = p.step_down_patients ∧
    q.total_patients ≤ p.total_patients
  pools : s'.n_total_new_patients = s.n_total_new_patients ∧
    s'.n_A_new_patients = s.n_A_new_patients ∧ s'.n_B_new_patients = s.n_B_new_patients ∧
    s'.n_N_new_patients = s.n_N_new_patients ∧
    s'.n_step_down_patients = s.n_step_down_patients

theorem p5_refl (s : AllocState) : P5 s s := by
  refine ⟨rfl, ?_, rfl, rfl, rfl, rfl, rfl⟩
  intro j p q hp hq
  rw [hp] at hq
  cases hq
  exact ⟨rfl, rfl, rfl, rfl, rfl, rfl, rfl, rfl, le_refl _⟩

theorem p5_trans {s t u : AllocState} (h1 : P5 s t) (h2 : P5 t u) : P5 s u := by
  refine ⟨h2.len_eq.trans h1.len_eq, ?_, ?_⟩
  · intro j p q hp hq
    have hlen : j < t.physicians.length := by
      obtain ⟨hu, -⟩ := List.get?_eq_some.mp hq
      have := h2.len_eq
      omega
    have hr : t.physicians.get? j = some (t.physicians.get ⟨j, hlen⟩) := List.get?_eq_get hlen
    obtain ⟨a1, a2, a3, a4, a5, a6, a7, a8, a9⟩ := h1.rel j p _ hp hr
    obtain ⟨b1, b2, b3, b4, b5, b6, b7, b8, b9⟩ := h2.rel j _ q hr hq
    exact ⟨b1.trans a1, b2.trans a2, b3.trans a3, b4.trans a4, b5.trans a5, b6.trans a6,
      b7.trans a7, b8.trans a8, b9.trans a9⟩
  · obtain ⟨a1, a2, a3, a4, a5⟩ := h1.pools
    obtain ⟨b1, b2, b3, b4, b5⟩ := h2.pools
    exact ⟨b1.trans a1, b2.trans a2, b3.trans a3, b4.trans a4, b5.trans a5⟩

theorem p5_phase5Step {snap : List Physician} {ns : Int} {s s' : AllocState} {i : Nat}
    (h : phase5Step snap ns s i = some s') : P5 s s' := by
  rw [phase5Step] at h
  split at h
  · cases h; exact p5_refl _
  · next p hgi =>
    split at h
    · dsimp only at h
      split at h
      · split at h
        · next hgain =>
          split at h
          · exact absurd h (by simp)
          · next p' hrm =>
            cases h
            refine ⟨modifyIdx_length _ _ _, ?_, rfl, rfl, rfl, rfl, rfl⟩
            intro j pj qj hpj hqj
            by_cases hij : j = i
            · subst hij
              rw [hpj] at hgi
              cases hgi
              rw [get?_modifyIdx_self _ j _ p hpj] at hqj
              cases hqj
              obtain ⟨f1, f2, f3, f4, f5, f6, f7, f8⟩ := removeN_fields hrm
              refine ⟨f1, f2, f3, f4, f5, f6, f7, f8, ?_⟩
              show dictGet snap (fun q => q.total_patients) p.name p.total_patients
                ≤ p.total_patients
              omega
            · rw [get?_modifyIdx_ne _ i _ j hij, hpj] at hqj
              cases hqj
              exact ⟨rfl, rfl, rfl, rfl, rfl, rfl, rfl, rfl, le_refl _⟩
        · cases h; exact p5_refl _
      · cases h; exact p5_refl _
    · cases h; exact p5_refl _

theorem p5_phase5Aux {snap : List Physician} {ns : Int} (l : List Nat) :
    ∀ {s s' : AllocState}, phase5Aux snap ns s l = some s' → P5 s s' := by
  induction l with
  | nil =>
    intro s s' h
    rw [phase5Aux] at h
    cases h
    exact p5_refl _
  | cons i rest ih =>
    intro s s' h
    rw [phase5Aux] at h
    split at h
    · exact absurd h (by simp)
    · next s1 heq => exact p5_trans (p5_phase5Step heq) (ih h)

theorem p5_phase5 {snap : List Physician} {ns : Int} {s s' : AllocState}
    (h : phase5 snap ns s = some s') : P5 s s' :=
  p5_phase5Aux _ h

theorem phase5Step_id {snap : List Physician} {ns : Int} {s : AllocState} {i : Nat}
    (h : ∀ p, s.physicians.get? i = some p → p.is_new = true →
      dictGet snap (fun q => q.total_patients) p.name p.total_patients < ns ∨
      p.total_patients = dictGet snap (fun q => q.total_patients) p.name p.total_patients) :
    phase5Step snap ns s i = some s := by
  rw [phase5Step]
  split
  · rfl
  · next p hgi =>
    split
    · next hnew =>
      dsimp only
      rcases h p hgi hnew with hlt | heq
      · rw [if_neg (by omega)]
      · by_cases hge : dictGet snap (fun q => q.total_patients) p.name p.total_patients ≥ ns
        · rw [if_pos hge, if_neg (by omega)]
        · rw [if_neg hge]
    · rfl

theorem phase5Aux_id {snap : List Physician} {ns : Int} {s : AllocState} (l : List Nat)
    (h : ∀ i p, s.physicians.get? i = some p → p.is_new = true →
      dictGet snap (fun q => q.total_patients) p.name p.total_patients < ns ∨
      p.total_patients = dictGet snap (fun q => q.total_patients) p.name p.total_patients) :
    phase5Aux snap ns s l = some s := by
  induction l with
  | nil => rfl
  | cons i rest ih =>
    rw [phase5Aux, phase5Step_id (h i)]
    exact ih

theorem phase5_id {snap : List Physician} {ns : Int} {s : AllocState}
    (h : ∀ i p, s.physicians.get? i = some p → p.is_new = true →
      dictGet snap (fun q => q.total_patients) p.name p.total_patients < ns ∨
      p.total_patients = dictGet snap (fun q => q.total_patients) p.name p.total_patients) :
    phase5 snap ns s = some s :=
  phase5Aux_id _ h

/-! dictGet lemmas. -/

theorem dictGet_mem {l : List Physician} {k : String}
    (h : k ∈ l.map (fun q => q.name)) (f : Physician → Int) (d : Int) :
    ∃ q ∈ l, dictGet l f k d = f q := by
  unfold dictGet
  cases hg : (l.filter (fun p => p.name == k)).getLast? with
  | none =>
    exfalso
    obtain ⟨p, hpmem, hpk⟩ := List.mem_map.mp h
    have hmem : p ∈ l.filter (fun p => p.name == k) :=
      List.mem_filter.mpr ⟨hpmem, by simp [hpk]⟩
    rw [List.getLast?_eq_none_iff] at hg
    rw [hg] at hmem
    exact absurd hmem (List.not_mem_nil p)
  | some q =>
    obtain ⟨hne, hq⟩ := List.mem_getLast?_eq_getLast
      (show q ∈ (l.filter (fun p => p.name == k)).getLast? from Option.mem_def.mpr hg)
    have hqmem : q ∈ l.filter (fun p => p.name == k) := by
      rw [hq]
      exact List.getLast_mem hne
    exact ⟨q, (List.mem_filter.mp hqmem).1, rfl⟩

theorem dictGet_nodup {l : List Physician} (hnd : (l.map (fun q => q.name)).Nodup) :
    ∀ {i : Nat} {p : Physician}, l.get? i = some p →
      ∀ (f : Physician → Int) (d : Int), dictGet l f p.name d = f p := by
  induction l with
  | nil => intro i p h; simp [List.get?] at h
  | cons q rest ih =>
    intro i p h f d
    rw [List.map_cons, List.nodup_cons] at hnd
    cases i with
    | zero =>
      simp only [List.get?] at h
      cases h
      unfold dictGet
      have hfr : rest.filter (fun r => r.name == q.name) = [] := by
        rw [List.filter_eq_nil_iff]
        intro r hr hc
        exact hnd.1 (List.mem_map.mpr ⟨r, hr, beq_iff_eq.mp hc⟩)
      rw [List.filter_cons_of_pos (by simp), hfr]
      rfl
    | succ n =>
      simp only [List.get?] at h
      have hpname : p.name ∈ rest.map (fun r => r.name) :=
        List.mem_map.mpr ⟨p, List.get?_mem h, rfl⟩
      have hqp : ¬(q.name == p.name) = true := by
        intro hc
        rw [beq_iff_eq] at hc
        rw [hc] at hnd
        exact hnd.1 hpname
      unfold dictGet at ih ⊢
      rw [@List.filter_cons_of_neg _ (fun r => r.name == p.name) q rest hqp]
      exact ih hnd.2 h f d

theorem Evolves.rel_of_get' {M : Int} {s s' : AllocState} (ev : Evolves M s s') {j : Nat}
    {p' : Physician} (h : s'.physicians.get? j = some p') :
    ∃ p, s.physicians.get? j = some p ∧ PhysLe M p p' := by
  have hj : j < s.physicians.length := by
    obtain ⟨hj, -⟩ := List.get?_eq_some.mp h
    have := ev.len_eq
    omega
  exact ⟨_, List.get?_eq_get hj, ev.rel j _ p' (List.get?_eq_get hj) h⟩

theorem phase5Step_isSome {snap : List Physician} {ns : Int} {s : AllocState} {i : Nat}
    (hsnap : ∀ p ∈ snap, 0 ≤ p.total_patients)
    (hnames : ∀ p, s.physicians.get? i = some p → p.name ∈ snap.map (fun q => q.name)) :
    ∃ s', phase5Step snap ns s i = some s' := by
  rw [phase5Step]
  split
  · exact ⟨s, rfl⟩
  · next p hgi =>
    split
    · dsimp only
      split
      · split
        · next hgain =>
          have hd : 0 ≤ dictGet snap (fun q => q.total_patients) p.name p.total_patients := by
            obtain ⟨q, hqmem, hq⟩ :=
              dictGet_mem (hnames p hgi) (fun q => q.total_patients) p.total_patients
            rw [hq]
            exact hsnap q hqmem
          have hle : (((p.total_patients -
              dictGet snap (fun q => q.total_patients) p.name p.total_patients).toNat : Nat) : Int)
              ≤ p.total_patients := by omega
          obtain ⟨p', hp'⟩ := removeN_some hle
          rw [hp']
          exact ⟨_, rfl⟩
        · exact ⟨s, rfl⟩
      · exact ⟨s, rfl⟩
    · exact ⟨s, rfl⟩

theorem phase5Aux_isSome {snap : List Physician} {ns : Int}
    (hsnap : ∀ p ∈ snap, 0 ≤ p.total_patients) (l : List Nat) :
    ∀ s : AllocState,
      (∀ j p, s.physicians.get? j = some p → p.name ∈ snap.map (fun q => q.name)) →
      ∃ s', phase5Aux snap ns s l = some s' := by
  induction l with
  | nil => intro s _; exact ⟨s, rfl⟩
  | cons i rest ih =>
    intro s hnames
    obtain ⟨s1, hs1⟩ := phase5Step_isSome hsnap (fun p h => hnames i p h)
    rw [phase5Aux, hs1]
    refine ih s1 ?_
    intro j p hp
    have hp5 := p5_phase5Step hs1
    have hj : j < s.physicians.length := by
      obtain ⟨hj, -⟩ := List.get?_eq_some.mp hp
      have := hp5.len_eq
      omega
    obtain ⟨e1, -⟩ := hp5.rel j _ p (List.get?_eq_get hj) hp
    rw [e1]
    exact hnames j _ (List.get?_eq_get hj)

theorem phase5_isSome {snap : List Physician} {ns : Int} {s : AllocState}
    (hsnap : ∀ p ∈ snap, 0 ≤ p.total_patients)
    (hnames : ∀ j p, s.physicians.get? j = some p → p.name ∈ snap.map (fun q => q.name)) :
    ∃ s', phase5 snap ns s = some s' :=
  phase5Aux_isSome hsnap _ s hnames

/-- The state reached after Phases 1-4, before Phase 5.  This is exactly the
intermediate value of `allocate_patients` (proof-side abbreviation). -/
def stage4 (physicians : List Physician) (nt nA nB nN ns mp nsd M : Int) : AllocState :=
  phase4 physicians M (phase3 ns M (phase2 mp M
    (phase1 physicians ⟨physicians, nt, nA, nB, nN, nsd⟩)))

theorem allocate_eq (physicians : List Physician) (nt nA nB nN ns mp nsd M : Int) :
    allocate_patients physicians nt nA nB nN ns mp nsd M
      = phase5 physicians ns (stage4 physicians nt nA nB nN ns mp nsd M) := rfl

theorem evolves_stage4 (physicians : List Physician) (nt nA nB nN ns mp nsd M : Int) :
    Evolves M ⟨physicians, nt, nA, nB, nN, nsd⟩
      (stage4 physicians nt nA nB nN ns mp nsd M) := by
  unfold stage4
  exact ((((evolves_phase1 M physicians _).trans
    (evolves_phase2 M mp _)).trans
    (evolves_phase3 M ns _)).trans
    (evolves_phase4 M physicians _))

theorem stage4_sdAt_bound (physicians : List Physician) (nt nA nB nN ns mp nsd M : Int)
    (j : Nat) :
    sdAt (stage4 physicians nt nA nB nN ns mp nsd M).physicians j
      ≤ sdAt physicians j + 1 := by
  unfold stage4
  rw [phase4_sdAt, phase3_sdAt, phase2_sdAt]
  exact phase1_sdAt_bound physicians ⟨physicians, nt, nA, nB, nN, nsd⟩ j

theorem stage4_totAt_frozen (physicians : List Physician) (nt nA nB nN ns mp nsd M : Int)
    (j : Nat) (hn : newAt physicians j) (hge : ns ≤ totAt physicians j) :
    totAt (stage4 physicians nt nA nB nN ns mp nsd M).physicians j = totAt physicians j := by
  have hn1 : newAt (phase1 physicians ⟨physicians, nt, nA, nB, nN, nsd⟩).physicians j :=
    newAt_of_evolves (evolves_phase1 M physicians _) hn
  have e1 := phase1_totAt physicians ⟨physicians, nt, nA, nB, nN, nsd⟩ j
  have hn2 : newAt (phase2 mp M (phase1 physicians ⟨physicians, nt, nA, nB, nN, nsd⟩)).physicians j :=
    newAt_of_evolves (evolves_phase2 M mp _) hn1
  have e2 := phase2_totAt_new M mp (phase1 physicians ⟨physicians, nt, nA, nB, nN, nsd⟩) j hn1
  have hge2 : ns ≤ totAt (phase2 mp M
      (phase1 physicians ⟨physicians, nt, nA, nB, nN, nsd⟩)).physicians j := by
    rw [e2, e1]
    exact hge
  have e3 := phase3_totAt_frozen M ns (phase2 mp M
    (phase1 physicians ⟨physicians, nt, nA, nB, nN, nsd⟩)) j hge2
  have hn3 : newAt (phase3 ns M (phase2 mp M
      (phase1 physicians ⟨physicians, nt, nA, nB, nN, nsd⟩))).physicians j :=
    newAt_of_evolves (evolves_phase3 M ns _) hn2
  unfold stage4
  rw [phase4_totAt_new _ _ _ _ hn3, e3, e2, e1]

theorem stage4_phase5_id (physicians : List Physician) (nt nA nB nN ns mp nsd M : Int)
    (hnd : (physicians.map (fun q => q.name)).Nodup) :
    phase5 physicians ns (stage4 physicians nt nA nB nN ns mp nsd M)
      = some (stage4 physicians nt nA nB nN ns mp nsd M) := by
  apply phase5_id
  intro i p hp hnew
  obtain ⟨p0, hp0, hrel⟩ :=
    (evolves_stage4 physicians nt nA nB nN ns mp nsd M).rel_of_get' hp
  have hdict : dictGet physicians (fun q => q.total_patients) p.name p.total_patients
      = p0.total_patients := by
    rw [hrel.name_eq]
    exact dictGet_nodup hnd hp0 _ _
  by_cases hge : ns ≤ p0.total_patients
  · right
    rw [hdict]
    have hfr := stage4_totAt_frozen physicians nt nA nB nN ns mp nsd M i
      ⟨p0, hp0, by rw [← hrel.new_eq]; exact hnew⟩
      (by unfold totAt; rw [hp0]; exact hge)
    unfold totAt at hfr
    rw [hp, hp0] at hfr
    exact hfr
  · left
    rw [hdict]
    omega

theorem allocate_some_of_nodup (physicians : List Physician) (nt nA nB nN ns mp nsd M : Int)
    (hnd : (physicians.map (fun q => q.name)).Nodup) :
    allocate_patients physicians nt nA nB nN ns mp nsd M
      = some (stage4 physicians nt nA nB nN ns mp nsd M) := by
  rw [allocate_eq]
  exact stage4_phase5_id physicians nt nA nB nN ns mp nsd M hnd

/-! Claim theorems. -/

/-- C1: Conservation.  For every input satisfying the preconditions (non-empty
roster with unique names, all worker counts, pool counts and parameters ≥ 0),
when `allocate_patients` returns, the sum over all workers of (final
`total_patients` minus the pre-run snapshot of `total_patients`) plus the
returned `n_total_new_patients` equals the input `n_total_new_patients`, and
the sum of step-down gains plus the returned `n_step_down_patients` equals the
input `n_step_down_patients`. -/
theorem C1_conservation (physicians : List Physician) (nt nA nB nN ns mp nsd M : Int)
    (s' : AllocState)
    (hne : physicians ≠ [])
    (hnd : (physicians.map (fun q => q.name)).Nodup)
    (hcounts : ∀ p ∈ physicians, 0 ≤ p.total_patients ∧ 0 ≤ p.step_down_patients)
    (hpools : 0 ≤ nt ∧ 0 ≤ nA ∧ 0 ≤ nB ∧ 0 ≤ nN ∧ 0 ≤ nsd)
    (hparams : 0 ≤ ns ∧ 0 ≤ mp ∧ 0 ≤ M)
    (h : allocate_patients physicians nt nA nB nN ns mp nsd M = some s') :
    (sumTotal s'.physicians - sumTotal physicians) + s'.n_total_new_patients = nt ∧
    (sumSD s'.physicians - sumSD physicians) + s'.n_step_down_patients = nsd := by
  rw [allocate_some_of_nodup physicians nt nA nB nN ns mp nsd M hnd] at h
  cases h
  have ev := evolves_stage4 physicians nt nA nB nN ns mp nsd M
  have h1 := ev.acct_total
  have h2 := ev.acct_sd
  dsimp only at h1 h2
  exact ⟨by omega, by omega⟩

/-- C1 witness: a concrete precondition-satisfying run on a three-worker
roster where conservation is checked numerically. -/
theorem C1_conservation_witness :
    (sumTotal [⟨"m1", false, "A", false, true, 3, 1, 0, 0⟩,
               ⟨"m2", true, "B", false, true, 9, 0, 0, 0⟩,
               ⟨"m3", false, "B", true, false, 4, 2, 0, 0⟩] = 16) ∧
    ((sumTotal [⟨"m1", false, "A", false, true, 6, 2, 0, 0⟩,
                ⟨"m2", true, "B", false, true, 9, 1, 0, 0⟩,
                ⟨"m3", false, "B", true, false, 7, 2, 0, 0⟩] - 16) + 0 = 6 ∧
     (sumSD [⟨"m1", false, "A", false, true, 6, 2, 0, 0⟩,
             ⟨"m2", true, "B", false, true, 9, 1, 0, 0⟩,
             ⟨"m3", false, "B", true, false, 7, 2, 0, 0⟩] - sumSD
       [⟨"m1", false, "A", false, true, 3, 1, 0, 0⟩,
        ⟨"m2", true, "B", false, true, 9, 0, 0, 0⟩,
        ⟨"m3", false, "B", true, false, 4, 2, 0, 0⟩]) + 1 = 3) := by
  constructor
  · decide
  · have := C1_conservation
      [⟨"m1", false, "A", false, true, 3, 1, 0, 0⟩,
       ⟨"m2", true, "B", false, true, 9, 0, 0, 0⟩,
       ⟨"m3", false, "B", true, false, 4, 2, 0, 0⟩] 6 2 3 1 6 5 3 12
      ⟨[⟨"m1", false, "A", false, true, 6, 2, 0, 0⟩,
        ⟨"m2", true, "B", false, true, 9, 1, 0, 0⟩,
        ⟨"m3", false, "B", true, false, 7, 2, 0, 0⟩], 0, 0, 0, 0, 1⟩
      (by decide) (by decide) (by decide) (by decide) (by decide) (by decide)
    simpa using this

/-- C2 counterexample: a worker whose initial `total_patients` (6) already
exceeds `maximum_patients` (5) still exceeds it when `allocate_patients`
returns, so the claimed postcondition `total_patients ≤ maximum_patients`
fails for workers that start over the cap. -/
theorem C2_counterexample :
    allocate_patients [⟨"a", false, "A", false, true, 6, 0, 0, 0⟩] 0 0 0 0 0 0 0 5
      = some ⟨[⟨"a", false, "A", false, true, 6, 0, 0, 0⟩], 0, 0, 0, 0, 0⟩ ∧
    ¬((6 : Int) ≤ 5) := by
  constructor
  · rfl
  · decide

/-- C2 (amended): when `allocate_patients` returns, every worker's
`total_patients` is at most `max` of its initial count and
`maximum_patients`; in particular workers that start within the cap stay
within it, but a worker already above the cap is never brought down. -/
theorem C2_capacity (physicians : List Physician) (nt nA nB nN ns mp nsd M : Int)
    (s' : AllocState)
    (h : allocate_patients physicians nt nA nB nN ns mp nsd M = some s') :
    ∀ i p q, physicians.get? i = some p → s'.physicians.get? i = some q →
      q.total_patients ≤ max p.total_patients M := by
  rw [allocate_eq] at h
  have hp5 := p5_phase5 h
  have ev := evolves_stage4 physicians nt nA nB nN ns mp nsd M
  intro i p q hp hq
  have hi : i < (stage4 physicians nt nA nB nN ns mp nsd M).physicians.length := by
    obtain ⟨hj, -⟩ := List.get?_eq_some.mp hq
    have := hp5.len_eq
    omega
  have hr := List.get?_eq_get hi
  have h1 := ev.rel i p _ hp hr
  obtain ⟨-, -, -, -, -, -, -, -, h2⟩ := hp5.rel i _ q hr hq
  exact le_trans h2 h1.total_cap

/-- C2 witness: a concrete run in which a worker that starts within the cap
ends within `max` of its initial count and the cap. -/
theorem C2_capacity_witness :
    allocate_patients [⟨"w", false, "A", false, true, 2, 0, 0, 0⟩] 4 4 0 0 1 3 0 5
      = some ⟨[⟨"w", false, "A", false, true, 5, 0, 0, 0⟩], 1, 1, 0, 0, 0⟩ ∧
    (5 : Int) ≤ max 2 5 := by
  refine ⟨rfl, ?_⟩
  have := C2_capacity [⟨"w", false, "A", false, true, 2, 0, 0, 0⟩] 4 4 0 0 1 3 0 5
    ⟨[⟨"w", false, "A", false, true, 5, 0, 0, 0⟩], 1, 1, 0, 0, 0⟩ rfl
    0 ⟨"w", false, "A", false, true, 2, 0, 0, 0⟩ ⟨"w", false, "A", false, true, 5, 0, 0, 0⟩
    rfl rfl
  simpa using this

/-- C4 counterexample: with `n_total_new_patients = 0` understating
`n_A_new_patients = 1`, Phase 2 allocates one unit and drives the returned
`n_total_new_patients` to -1, so "no pool counter goes negative" fails for
the total pool. -/
theorem C4_counterexample :
    allocate_patients [⟨"a", false, "A", false, true, 0, 0, 0, 0⟩] 0 1 0 0 0 2 0 10
      = some ⟨[⟨"a", false, "A", false, true, 1, 0, 0, 0⟩], -1, 0, 0, 0, 0⟩ ∧
    ((-1 : Int) < 0) := by
  constructor
  · rfl
  · decide

/-- C4 (amended): the four guarded pool counters (`n_A`, `n_B`, `n_N` and
`n_step_down`) never go negative when they start non-negative;
`n_total_new_patients` can go negative when the caller understates it, but it
stays non-negative whenever the input satisfies
`n_A + n_B + n_N ≤ n_total_new_patients`. -/
theorem C4_pools_nonneg (physicians : List Physician) (nt nA nB nN ns mp nsd M : Int)
    (s' : AllocState)
    (hA : 0 ≤ nA) (hB : 0 ≤ nB) (hN : 0 ≤ nN) (hSD : 0 ≤ nsd)
    (h : allocate_patients physicians nt nA nB nN ns mp nsd M = some s') :
    0 ≤ s'.n_A_new_patients ∧ 0 ≤ s'.n_B_new_patients ∧ 0 ≤ s'.n_N_new_patients ∧
    0 ≤ s'.n_step_down_patients ∧
    (nA + nB + nN ≤ nt → 0 ≤ s'.n_total_new_patients) := by
  rw [allocate_eq] at h
  have hp5 := p5_phase5 h
  have ev := evolves_stage4 physicians nt nA nB nN ns mp nsd M
  obtain ⟨e0, e1, e2, e3, e4⟩ := hp5.pools
  have k1 := ev.nA_nonneg
  have k2 := ev.nB_nonneg
  have k3 := ev.nN_nonneg
  have k4 := ev.nSD_nonneg
  have a1 := ev.acct_total
  have a2 := ev.acct_team
  dsimp only at k1 k2 k3 k4 a1 a2
  refine ⟨by omega, by omega, by omega, by omega, fun hle => by omega⟩

/-- C4 witness: a concrete run whose input pools are non-negative and whose
total pool is consistent, with all five residual counters non-negative. -/
theorem C4_pools_nonneg_witness :
    allocate_patients [⟨"a", false, "A", false, true, 0, 0, 0, 0⟩] 1 1 0 0 0 2 0 10
      = some ⟨[⟨"a", false, "A", false, true, 1, 0, 0, 0⟩], 0, 0, 0, 0, 0⟩ ∧
    ((0 : Int) ≤ 0 ∧ 0 ≤ 0 ∧ 0 ≤ 0 ∧ 0 ≤ 0 ∧ ((1 : Int) + 0 + 0 ≤ 1 → (0 : Int) ≤ 0)) := by
  refine ⟨rfl, ?_⟩
  have := C4_pools_nonneg [⟨"a", false, "A", false, true, 0, 0, 0, 0⟩] 1 1 0 0 0 2 0 10
    ⟨[⟨"a", false, "A", false, true, 1, 0, 0, 0⟩], 0, 0, 0, 0, 0⟩
    (by decide) (by decide) (by decide) (by decide) rfl
  simpa using this

/-- C5: totalPool lockstep.  Whenever `allocate_patients` returns, the
decrease of `n_total_new_patients` across the call equals exactly the sum of
the decreases of `n_A_new_patients`, `n_B_new_patients` and
`n_N_new_patients`. -/
theorem C5_lockstep (physicians : List Physician) (nt nA nB nN ns mp nsd M : Int)
    (s' : AllocState)
    (h : allocate_patients physicians nt nA nB nN ns mp nsd M = some s') :
    nt - s'.n_total_new_patients =
      (nA - s'.n_A_new_patients) + (nB - s'.n_B_new_patients)
        + (nN - s'.n_N_new_patients) := by
  rw [allocate_eq] at h
  have hp5 := p5_phase5 h
  have ev := evolves_stage4 physicians nt nA nB nN ns mp nsd M
  obtain ⟨e0, e1, e2, e3, e4⟩ := hp5.pools
  have a1 := ev.acct_total
  have a2 := ev.acct_team
  dsimp only at a1 a2
  omega

/-- C5 witness: the lockstep identity checked on a concrete run. -/
theorem C5_lockstep_witness :
    allocate_patients [⟨"a", false, "A", false, true, 0, 0, 0, 0⟩] 5 2 2 1 0 2 0 10
      = some ⟨[⟨"a", false, "A", false, true, 5, 0, 0, 0⟩], 0, 0, 0, 0, 0⟩ ∧
    (5 : Int) - 0 = (2 - 0) + (2 - 0) + (1 - 0) := by
  refine ⟨rfl, ?_⟩
  have := C5_lockstep [⟨"a", false, "A", false, true, 0, 0, 0, 0⟩] 5 2 2 1 0 2 0 10
    ⟨[⟨"a", false, "A", false, true, 5, 0, 0, 0⟩], 0, 0, 0, 0, 0⟩ rfl
  simpa using this

/-- C3 counterexample: a working Team B worker whose `total_patients` equals
`maximum_patients` (5) still receives a step-down unit in Phase 1, because
`can_take_step_down` never consults the capacity bound. -/
theorem C3_counterexample :
    phase1 [⟨"b", false, "B", false, true, 5, 0, 0, 0⟩]
        ⟨[⟨"b", false, "B", false, true, 5, 0, 0, 0⟩], 0, 0, 0, 0, 1⟩
      = ⟨[⟨"b", false, "B", false, true, 5, 1, 0, 0⟩], 0, 0, 0, 0, 0⟩ ∧
    ¬((5 : Int) < 5) := by
  constructor
  · rfl
  · decide

/-- C3 (amended): Phase 1 eligibility is only the step-down gain bound
(gain-since-snapshot < 1); the capacity bound `total_patients <
maximum_patients` is not checked, so a maxed-out working Team B worker can
still receive a step-down unit.  Consequently each worker receives at most
one step-down unit in Phase 1: its step-down count grows by at most 1. -/
theorem C3_phase1_eligibility (physicians : List Physician) (nt nA nB nN nsd : Int) :
    ∀ i p q, physicians.get? i = some p →
      (phase1 physicians ⟨physicians, nt, nA, nB, nN, nsd⟩).physicians.get? i = some q →
      q.step_down_patients ≤ p.step_down_patients + 1 := by
  intro i p q hp hq
  have hb := phase1_sdAt_bound physicians ⟨physicians, nt, nA, nB, nN, nsd⟩ i
  unfold sdAt at hb
  dsimp only at hb
  simp only [hp, hq] at hb
  exact hb

/-- C3 witness: the amended bound applied to a concrete Phase 1 run. -/
theorem C3_phase1_eligibility_witness :
    ((1 : Int) ≤ 0 + 1) ∧
    phase1 [⟨"b", false, "B", false, true, 5, 0, 0, 0⟩]
        ⟨[⟨"b", false, "B", false, true, 5, 0, 0, 0⟩], 0, 0, 0, 0, 2⟩
      = ⟨[⟨"b", false, "B", false, true, 5, 1, 0, 0⟩], 0, 0, 0, 0, 1⟩ := by
  refine ⟨?_, rfl⟩
  have := C3_phase1_eligibility [⟨"b", false, "B", false, true, 5, 0, 0, 0⟩] 0 0 0 0 2
    0 ⟨"b", false, "B", false, true, 5, 0, 0, 0⟩ ⟨"b", false, "B", false, true, 5, 1, 0, 0⟩
    rfl rfl
  simpa using this

/-- C6: Correction idempotence.  For every input satisfying the preconditions
and every new worker whose pre-run snapshot of `total_patients` is at least
`new_start_number`, the worker's `total_patients` at return equals its
snapshot value exactly. -/
theorem C6_correction_idempotence (physicians : List Physician)
    (nt nA nB nN ns mp nsd M : Int) (s' : AllocState) (i : Nat) (p : Physician)
    (hne : physicians ≠ [])
    (hnd : (physicians.map (fun q => q.name)).Nodup)
    (hcounts : ∀ p ∈ physicians, 0 ≤ p.total_patients ∧ 0 ≤ p.step_down_patients)
    (hpools : 0 ≤ nt ∧ 0 ≤ nA ∧ 0 ≤ nB ∧ 0 ≤ nN ∧ 0 ≤ nsd)
    (hparams : 0 ≤ ns ∧ 0 ≤ mp ∧ 0 ≤ M)
    (h : allocate_patients physicians nt nA nB nN ns mp nsd M = some s')
    (hp : physicians.get? i = some p) (hnew : p.is_new = true)
    (hge : ns ≤ p.total_patients) :
    ∃ q, s'.physicians.get? i = some q ∧ q.total_patients = p.total_patients := by
  rw [allocate_some_of_nodup physicians nt nA nB nN ns mp nsd M hnd] at h
  cases h
  obtain ⟨q, hq, hrel⟩ :=
    (evolves_stage4 physicians nt nA nB nN ns mp nsd M).rel_of_get hp
  refine ⟨q, hq, ?_⟩
  have hfr := stage4_totAt_frozen physicians nt nA nB nN ns mp nsd M i
    ⟨p, hp, hnew⟩ (by unfold totAt; rw [hp]; exact hge)
  unfold totAt at hfr
  simp only [hq, hp] at hfr
  exact hfr

/-- C6 witness: a new worker with initial total 9 ≥ new_start_number 6 ends
the run at exactly 9. -/
theorem C6_correction_idempotence_witness :
    allocate_patients [⟨"m1", false, "A", false, true, 3, 1, 0, 0⟩,
        ⟨"m2", true, "B", false, true, 9, 0, 0, 0⟩,
        ⟨"m3", false, "B", true, false, 4, 2, 0, 0⟩] 6 2 3 1 6 5 3 12
      = some ⟨[⟨"m1", false, "A", false, true, 6, 2, 0, 0⟩,
          ⟨"m2", true, "B", false, true, 9, 1, 0, 0⟩,
          ⟨"m3", false, "B", true, false, 7, 2, 0, 0⟩], 0, 0, 0, 0, 1⟩ ∧
    ∃ q, ([⟨"m1", false, "A", false, true, 6, 2, 0, 0⟩,
          ⟨"m2", true, "B", false, true, 9, 1, 0, 0⟩,
          ⟨"m3", false, "B", true, false, 7, 2, 0, 0⟩] : List Physician).get? 1 = some q ∧
        q.total_patients = 9 := by
  refine ⟨rfl, ?_⟩
  have := C6_correction_idempotence
    [⟨"m1", false, "A", false, true, 3, 1, 0, 0⟩,
     ⟨"m2", true, "B", false, true, 9, 0, 0, 0⟩,
     ⟨"m3", false, "B", true, false, 4, 2, 0, 0⟩] 6 2 3 1 6 5 3 12
    ⟨[⟨"m1", false, "A", false, true, 6, 2, 0, 0⟩,
      ⟨"m2", true, "B", false, true, 9, 1, 0, 0⟩,
      ⟨"m3", false, "B", true, false, 7, 2, 0, 0⟩], 0, 0, 0, 0, 1⟩
    1 ⟨"m2", true, "B", false, true, 9, 0, 0, 0⟩
    (by decide) (by decide) (by decide) (by decide) (by decide) rfl rfl rfl (by decide)
  simpa using this

/-- C7: Phase 5's reversal never triggers the invalid-decrement error.  For
every input with all worker counts non-negative, `allocate_patients` returns
normally (`isSome`): the `remove_patient` error branch is unreachable from
inside the allocator. -/
theorem C7_no_exception (physicians : List Physician) (nt nA nB nN ns mp nsd M : Int)
    (hcounts : ∀ p ∈ physicians, 0 ≤ p.total_patients ∧ 0 ≤ p.step_down_patients) :
    (allocate_patients physicians nt nA nB nN ns mp nsd M).isSome = true := by
  rw [allocate_eq]
  have hnames : ∀ j p,
      (stage4 physicians nt nA nB nN ns mp nsd M).physicians.get? j = some p →
      p.name ∈ physicians.map (fun q => q.name) := by
    intro j p hp
    obtain ⟨p0, hp0, hrel⟩ :=
      (evolves_stage4 physicians nt nA nB nN ns mp nsd M).rel_of_get' hp
    rw [hrel.name_eq]
    exact List.mem_map.mpr ⟨p0, List.get?_mem hp0, rfl⟩
  obtain ⟨s', hs'⟩ := phase5_isSome (fun p hp => (hcounts p hp).1) hnames
  rw [hs']
  rfl

/-- C7 witness: `allocate_patients` returns `some` on a concrete roster with
non-negative counts. -/
theorem C7_no_exception_witness :
    (∀ p ∈ [⟨"m1", false, "A", false, true, 3, 1, 0, 0⟩,
        ⟨"m2", true, "B", false, true, 9, 0, 0, 0⟩],
      (0 : Int) ≤ (p : Physician).total_patients ∧ 0 ≤ p.step_down_patients) ∧
    (allocate_patients [⟨"m1", false, "A", false, true, 3, 1, 0, 0⟩,
        ⟨"m2", true, "B", false, true, 9, 0, 0, 0⟩] 4 2 2 0 6 5 1 12).isSome = true := by
  refine ⟨by decide, ?_⟩
  exact C7_no_exception [⟨"m1", false, "A", false, true, 3, 1, 0, 0⟩,
    ⟨"m2", true, "B", false, true, 9, 0, 0, 0⟩] 4 2 2 0 6 5 1 12 (by decide)

/-- C8: Step-down single-gain.  For every input satisfying the preconditions,
every worker's `step_down_patients` at return exceeds its pre-run snapshot by
at most 1 (Phase 1 is the only phase that touches step-down counts). -/
theorem C8_step_down_single_gain (physicians : List Physician)
    (nt nA nB nN ns mp nsd M : Int) (s' : AllocState)
    (hne : physicians ≠ [])
    (hnd : (physicians.map (fun q => q.name)).Nodup)
    (hcounts : ∀ p ∈ physicians, 0 ≤ p.total_patients ∧ 0 ≤ p.step_down_patients)
    (hpools : 0 ≤ nt ∧ 0 ≤ nA ∧ 0 ≤ nB ∧ 0 ≤ nN ∧ 0 ≤ nsd)
    (hparams : 0 ≤ ns ∧ 0 ≤ mp ∧ 0 ≤ M)
    (h : allocate_patients physicians nt nA nB nN ns mp nsd M = some s') :
    ∀ i p q, physicians.get? i = some p → s'.physicians.get? i = some q →
      q.step_down_patients ≤ p.step_down_patients + 1 := by
  rw [allocate_eq] at h
  have hp5 := p5_phase5 h
  intro i p q hp hq
  have hi : i < (stage4 physicians nt nA nB nN ns mp nsd M).physicians.length := by
    obtain ⟨hj, -⟩ := List.get?_eq_some.mp hq
    have := hp5.len_eq
    omega
  have hr := List.get?_eq_get hi
  obtain ⟨-, -, -, -, -, -, -, e8, -⟩ := hp5.rel i _ q hr hq
  have hb := stage4_sdAt_bound physicians nt nA nB nN ns mp nsd M i
  unfold sdAt at hb
  simp only [hr, hp] at hb
  omega

/-- C8 witness: on a concrete run with a step-down pool of 3, every worker
gains at most one step-down unit. -/
theorem C8_step_down_single_gain_witness :
    allocate_patients [⟨"m1", false, "A", false, true, 3, 1, 0, 0⟩,
        ⟨"m2", true, "B", false, true, 9, 0, 0, 0⟩,
        ⟨"m3", false, "B", true, false, 4, 2, 0, 0⟩] 6 2 3 1 6 5 3 12
      = some ⟨[⟨"m1", false, "A", false, true, 6, 2, 0, 0⟩,
          ⟨"m2", true, "B", false, true, 9, 1, 0, 0⟩,
          ⟨"m3", false, "B", true, false, 7, 2, 0, 0⟩], 0, 0, 0, 0, 1⟩ ∧
    ((2 : Int) ≤ 1 + 1) := by
  refine ⟨rfl, ?_⟩
  have := C8_step_down_single_gain
    [⟨"m1", false, "A", false, true, 3, 1, 0, 0⟩,
     ⟨"m2", true, "B", false, true, 9, 0, 0, 0⟩,
     ⟨"m3", false, "B", true, false, 4, 2, 0, 0⟩] 6 2 3 1 6 5 3 12
    ⟨[⟨"m1", false, "A", false, true, 6, 2, 0, 0⟩,
      ⟨"m2", true, "B", false, true, 9, 1, 0, 0⟩,
      ⟨"m3", false, "B", true, false, 7, 2, 0, 0⟩], 0, 0, 0, 0, 1⟩
    (by decide) (by decide) (by decide) (by decide) (by decide) rfl
    0 ⟨"m1", false, "A", false, true, 3, 1, 0, 0⟩ ⟨"m1", false, "A", false, true, 6, 2, 0, 0⟩
    rfl rfl
  simpa using this

theorem totAt_modify_add_self (l : List Physician) (i : Nat) (p : Physician)
    (h : l.get? i = some p) :
    totAt (modifyIdx l i add_patient) i = totAt l i + 1 := by
  unfold totAt
  rw [get?_modifyIdx, if_pos rfl, h]
  simp [add_patient]

theorem teamPool_allocA (s : AllocState) (i : Nat) :
    teamPool (allocFromA s i) "A" = s.n_A_new_patients - 1 := by
  unfold teamPool allocFromA
  simp

theorem teamPool_allocB (s : AllocState) (i : Nat) :
    teamPool (allocFromB s i) "B" = s.n_B_new_patients - 1 := by
  unfold teamPool allocFromB
  simp

theorem teamPool_allocN (s : AllocState) (i : Nat) :
    teamPool (allocFromN s i) "N" = s.n_N_new_patients - 1 := by
  unfold teamPool allocFromN
  simp

theorem phase3Loop_exact (M : Int) (i : Nat) :
    ∀ (n : Nat) (s : AllocState) (p : Physician), s.physicians.get? i = some p →
      (p.team = "A" ∨ p.team = "B" ∨ p.team = "N") →
      (n : Int) ≤ teamPool s p.team → p.total_patients + n ≤ M →
      totAt (phase3Loop M i s n).physicians i = p.total_patients + n := by
  intro n
  induction n with
  | zero =>
    intro s p hg _ _ _
    rw [phase3Loop]
    unfold totAt
    rw [hg]
    simp
  | succ n ih =>
    intro s p hg ht hpool hcap
    have hct : can_take_patient M p = true := by
      simp only [can_take_patient, decide_eq_true_eq]
      push_cast at hcap
      omega
    rw [phase3Loop]
    simp only [hg]
    rw [if_pos hct]
    rcases ht with hA | hB | hN
    · have hnA : (n : Int) + 1 ≤ s.n_A_new_patients := by
        rw [hA] at hpool
        unfold teamPool at hpool
        rw [if_pos (show (("A" : String) == "A") = true by decide)] at hpool
        push_cast at hpool
        omega
      split
      · rw [ih (allocFromA s i) (add_patient p)
          (get?_modifyIdx_self s.physicians i add_patient p hg)
          (Or.inl hA)
          (by show (n : Int) ≤ teamPool (allocFromA s i) p.team
              rw [hA, teamPool_allocA]
              omega)
          (by show p.total_patients + 1 + (n : Int) ≤ M
              push_cast at hcap
              omega)]
        show p.total_patients + 1 + (n : Int) = p.total_patients + ((n : Nat) + 1 : Nat)
        push_cast
        ring
      · next h1 =>
        exfalso
        apply h1
        rw [hA]
        simp only [beq_self_eq_true, Bool.true_and, decide_eq_true_eq]
        omega
    · have hnB : (n : Int) + 1 ≤ s.n_B_new_patients := by
        rw [hB] at hpool
        unfold teamPool at hpool
        rw [if_neg (show ¬(("B" : String) == "A") = true by decide),
          if_pos (show (("B" : String) == "B") = true by decide)] at hpool
        push_cast at hpool
        omega
      have hAf : (p.team == "A") = false := by
        rw [hB]
        decide
      split
      · next h1 =>
        rw [hAf] at h1
        simp at h1
      · split
        · rw [ih (allocFromB s i) (add_patient p)
            (get?_modifyIdx_self s.physicians i add_patient p hg)
            (Or.inr (Or.inl hB))
            (by show (n : Int) ≤ teamPool (allocFromB s i) p.team
                rw [hB, teamPool_allocB]
                omega)
            (by show p.total_patients + 1 + (n : Int) ≤ M
                push_cast at hcap
                omega)]
          show p.total_patients + 1 + (n : Int) = p.total_patients + ((n : Nat) + 1 : Nat)
          push_cast
          ring
        · next h1 =>
          exfalso
          apply h1
          rw [hB]
          simp only [beq_self_eq_true, Bool.true_and, decide_eq_true_eq]
          omega
    · have hnN : (n : Int) + 1 ≤ s.n_N_new_patients := by
        rw [hN] at hpool
        unfold teamPool at hpool
        rw [if_neg (show ¬(("N" : String) == "A") = true by decide),
          if_neg (show ¬(("N" : String) == "B") = true by decide),
          if_pos (show (("N" : String) == "N") = true by decide)] at hpool
        push_cast at hpool
        omega
      have hAf : (p.team == "A") = false := by
        rw [hN]
        decide
      have hBf : (p.team == "B") = false := by
        rw [hN]
        decide
      split
      · next h1 =>
        rw [hAf] at h1
        simp at h1
      · split
        · next h1 =>
          rw [hBf] at h1
          simp at h1
        · split
          · rw [ih (allocFromN s i) (add_patient p)
              (get?_modifyIdx_self s.physicians i add_patient p hg)
              (Or.inr (Or.inr hN))
              (by show (n : Int) ≤ teamPool (allocFromN s i) p.team
                  rw [hN, teamPool_allocN]
                  omega)
              (by show p.total_patients + 1 + (n : Int) ≤ M
                  push_cast at hcap
                  omega)]
            show p.total_patients + 1 + (n : Int) = p.total_patients + ((n : Nat) + 1 : Nat)
            push_cast
            ring
          · next h1 =>
            exfalso
            apply h1
            rw [hN]
            simp only [beq_self_eq_true, Bool.true_and, decide_eq_true_eq]
            omega

theorem phase3Loop_totAt_le (M : Int) (i : Nat) :
    ∀ (n : Nat) (s : AllocState),
      totAt (phase3Loop M i s n).physicians i ≤ totAt s.physicians i + n := by
  intro n
  induction n with
  | zero => intro s; simp [phase3Loop]
  | succ n ih =>
    intro s
    rw [phase3Loop]
    split
    · omega
    · next p hg =>
      split
      · have hstep : ∀ s1 : AllocState, s1 = allocFromA s i ∨ s1 = allocFromB s i
            ∨ s1 = allocFromN s i →
            totAt (phase3Loop M i s1 n).physicians i ≤ totAt s.physicians i + (n + 1 : Nat) := by
          intro s1 hs1
          have h1 : totAt s1.physicians i = totAt s.physicians i + 1 := by
            rcases hs1 with h | h | h <;> rw [h] <;>
              exact totAt_modify_add_self s.physicians i p hg
          have := ih s1
          push_cast
          omega
        split
        · exact hstep _ (Or.inl rfl)
        · split
          · exact hstep _ (Or.inr (Or.inl rfl))
          · split
            · exact hstep _ (Or.inr (Or.inr rfl))
            · split
              · exact hstep _ (Or.inl rfl)
              · split
                · exact hstep _ (Or.inr (Or.inl rfl))
                · split
                  · exact hstep _ (Or.inr (Or.inr rfl))
                  · omega
      · omega

theorem phase3Step_totAt_le (M ns : Int) (s : AllocState) (i j : Nat) :
    totAt (phase3Step ns M s i).physicians j ≤ max (totAt s.physicians j) ns := by
  by_cases hij : j = i
  · subst hij
    rw [phase3Step]
    split
    · exact le_max_left _ _
    · next p hg =>
      split
      · have hb := phase3Loop_totAt_le M j ((ns - p.total_patients).toNat) s
        have ht : totAt s.physicians j = p.total_patients := by
          unfold totAt
          rw [hg]
        omega
      · exact le_max_left _ _
  · rw [phase3Step]
    split
    · exact le_max_left _ _
    · split
      · rw [totAt_congr (phase3Loop_get?_ne M i _ s j hij)]
        exact le_max_left _ _
      · exact le_max_left _ _

theorem phase3_fold_totAt_le (M ns : Int) (l : List Nat) :
    ∀ s j, totAt (l.foldl (phase3Step ns M) s).physicians j
      ≤ max (totAt s.physicians j) ns := by
  induction l with
  | nil => intro s j; exact le_max_left _ _
  | cons i rest ih =>
    intro s j
    rw [List.foldl_cons]
    have h1 := ih (phase3Step ns M s i) j
    have h2 := phase3Step_totAt_le M ns s i j
    omega

theorem phase3_fold_totAt_ne (M ns : Int) (l : List Nat) (k : Nat) (hl : ∀ x ∈ l, x ≠ k) :
    ∀ s, totAt (l.foldl (phase3Step ns M) s).physicians k = totAt s.physicians k := by
  induction l with
  | nil => intro s; rfl
  | cons i rest ih =>
    intro s
    rw [List.foldl_cons, ih (fun x hx => hl x (List.mem_cons_of_mem i hx))]
    exact totAt_congr (phase3Step_get?_ne M ns s i k (Ne.symm (hl i (List.mem_cons_self i rest))))

/-- C9: Onboarding exactness.  For every input in which some new worker has
initial `total_patients = 0`, `new_start_number = 10`, `maximum_patients ≥ 10`,
and the worker's own team pool holds at least 10 units at the start of that
worker's Phase 3 turn, that worker's `total_patients` is exactly 10 when its
Phase 3 loop ends, it is still exactly 10 after all of Phase 3, and Phase 3
never pushes a new worker past `new_start_number` (its total stays at most
`max` of its Phase-3 entry total and 10). -/
theorem C9_onboarding_exact (physicians : List Physician) (nt nA nB nN mp nsd M : Int)
    (k : Nat) (p : Physician)
    (hM : (10 : Int) ≤ M)
    (hp : physicians.get? k = some p) (hnew : p.is_new = true)
    (h0 : p.total_patients = 0)
    (hpool : (10 : Int) ≤ teamPool
      ((List.range k).foldl (phase3Step 10 M)
        (phase2 mp M (phase1 physicians ⟨physicians, nt, nA, nB, nN, nsd⟩))) p.team) :
    totAt (phase3Step 10 M
        ((List.range k).foldl (phase3Step 10 M)
          (phase2 mp M (phase1 physicians ⟨physicians, nt, nA, nB, nN, nsd⟩))) k).physicians k
      = 10 ∧
    totAt (phase3 10 M
        (phase2 mp M (phase1 physicians ⟨physicians, nt, nA, nB, nN, nsd⟩))).physicians k
      = 10 ∧
    (∀ j q, (phase2 mp M
        (phase1 physicians ⟨physicians, nt, nA, nB, nN, nsd⟩)).physicians.get? j = some q →
      q.is_new = true →
      totAt (phase3 10 M
          (phase2 mp M (phase1 physicians ⟨physicians, nt, nA, nB, nN, nsd⟩))).physicians j
        ≤ max q.total_patients 10) := by
  have hn0 : newAt physicians k := ⟨p, hp, hnew⟩
  have hn1 : newAt (phase1 physicians ⟨physicians, nt, nA, nB, nN, nsd⟩).physicians k :=
    newAt_of_evolves (evolves_phase1 M physicians _) hn0
  have e2 : totAt (phase2 mp M
      (phase1 physicians ⟨physicians, nt, nA, nB, nN, nsd⟩)).physicians k
      = totAt physicians k := by
    rw [phase2_totAt_new M mp _ k hn1, phase1_totAt]
  have ePre : totAt ((List.range k).foldl (phase3Step 10 M)
      (phase2 mp M (phase1 physicians ⟨physicians, nt, nA, nB, nN, nsd⟩))).physicians k
      = totAt physicians k := by
    rw [phase3_fold_totAt_ne M 10 (List.range k) k
      (fun x hx => by have := List.mem_range.mp hx; omega), e2]
  have ev02 : Evolves M ⟨physicians, nt, nA, nB, nN, nsd⟩
      (phase2 mp M (phase1 physicians ⟨physicians, nt, nA, nB, nN, nsd⟩)) :=
    (evolves_phase1 M physicians _).trans (evolves_phase2 M mp _)
  have evPre : Evolves M (phase2 mp M (phase1 physicians ⟨physicians, nt, nA, nB, nN, nsd⟩))
      ((List.range k).foldl (phase3Step 10 M)
        (phase2 mp M (phase1 physicians ⟨physicians, nt, nA, nB, nN, nsd⟩))) :=
    evolves_foldl _ (fun s i => evolves_phase3Step M 10 s i) _ _
  obtain ⟨p', hp', rel'⟩ := (ev02.trans evPre).rel_of_get hp
  have hpt' : p'.total_patients = 0 := by
    have hh := ePre
    unfold totAt at hh
    simp only [hp', hp] at hh
    omega
  have hteam3 : p.team = "A" ∨ p.team = "B" ∨ p.team = "N" := by
    by_contra hc
    push_neg at hc
    obtain ⟨c1, c2, c3⟩ := hc
    have hz : teamPool ((List.range k).foldl (phase3Step 10 M)
        (phase2 mp M (phase1 physicians ⟨physicians, nt, nA, nB, nN, nsd⟩))) p.team = 0 := by
      unfold teamPool
      rw [if_neg (fun hx => c1 (beq_iff_eq.mp hx)),
          if_neg (fun hx => c2 (beq_iff_eq.mp hx)),
          if_neg (fun hx => c3 (beq_iff_eq.mp hx))]
    rw [hz] at hpool
    omega
  have hstep : totAt (phase3Step 10 M
      ((List.range k).foldl (phase3Step 10 M)
        (phase2 mp M (phase1 physicians ⟨physicians, nt, nA, nB, nN, nsd⟩))) k).physicians k
      = 10 := by
    rw [phase3Step]
    simp only [hp']
    rw [if_pos (show p'.is_new = true by rw [rel'.new_eq]; exact hnew)]
    rw [show (10 - p'.total_patients).toNat = 10 by omega]
    rw [phase3Loop_exact M k 10 _ p' hp'
      (by rw [rel'.team_eq]; exact hteam3)
      (by rw [rel'.team_eq]; push_cast; exact hpool)
      (by push_cast; omega)]
    rw [hpt']
    norm_num
  refine ⟨hstep, ?_, ?_⟩
  · rw [phase3]
    have hk : k < physicians.length := by
      obtain ⟨hk, -⟩ := List.get?_eq_some.mp hp
      exact hk
    have hlen2 : (phase2 mp M
        (phase1 physicians ⟨physicians, nt, nA, nB, nN, nsd⟩)).physicians.length
        = physicians.length := by
      have := ev02.len_eq
      dsimp only at this
      exact this
    rw [hlen2, show physicians.length = (k+1) + (physicians.length - (k+1)) by omega,
      List.range_add, List.foldl_append, List.range_succ, List.foldl_append]
    rw [phase3_fold_totAt_ne M 10 _ k
      (fun x hx => by
        obtain ⟨y, -, hy⟩ := List.mem_map.mp hx
        omega)]
    simp only [List.foldl_cons, List.foldl_nil]
    exact hstep
  · intro j q hq hqnew
    have hb := phase3_fold_totAt_le M 10 (List.range (phase2 mp M
      (phase1 physicians ⟨physicians, nt, nA, nB, nN, nsd⟩)).physicians.length)
      (phase2 mp M (phase1 physicians ⟨physicians, nt, nA, nB, nN, nsd⟩)) j
    have e : totAt (phase2 mp M
        (phase1 physicians ⟨physicians, nt, nA, nB, nN, nsd⟩)).physicians j
        = q.total_patients := by
      unfold totAt
      rw [hq]
    rw [phase3, ← e]
    exact hb

/-- C9 witness: a roster with a new Team B worker starting at 0, own pool 12,
new_start_number 10, maximum 30; the worker ends Phase 3 at exactly 10. -/
theorem C9_onboarding_exact_witness :
    ((10 : Int) ≤ 30) ∧
    totAt (phase3 10 30 (phase2 5 30 (phase1
        [⟨"n", true, "B", false, true, 0, 0, 0, 0⟩, ⟨"q", false, "B", false, true, 20, 0, 0, 0⟩]
        ⟨[⟨"n", true, "B", false, true, 0, 0, 0, 0⟩,
          ⟨"q", false, "B", false, true, 20, 0, 0, 0⟩], 12, 0, 12, 0, 0⟩))).physicians 0
      = 10 := by
  refine ⟨by decide, ?_⟩
  have := C9_onboarding_exact
    [⟨"n", true, "B", false, true, 0, 0, 0, 0⟩, ⟨"q", false, "B", false, true, 20, 0, 0, 0⟩]
    12 0 12 0 5 0 30 0 ⟨"n", true, "B", false, true, 0, 0, 0, 0⟩
    (by decide) rfl rfl rfl (by decide)
  exact this.2.1

/-! C10 machinery: changing only the is_working flags of a roster. -/

/-- Replace a physician's `is_working` flag. -/
def setWP (b : Bool) (p : Physician) : Physician := { p with is_working := b }

/-- Replace `is_working` of every roster entry, using the entry's index. -/
def setWFrom (f : Nat → Bool) : Nat → List Physician → List Physician
  | _, [] => []
  | k, p :: rest => setWP (f k) p :: setWFrom f (k+1) rest

/-- Replace `is_working` of every roster entry by `f` of its index. -/
def setWL (f : Nat → Bool) (l : List Physician) : List Physician := setWFrom f 0 l

/-- Replace the `is_working` flags of a whole allocation state. -/
def setW (f : Nat → Bool) (s : AllocState) : AllocState :=
  ⟨setWL f s.physicians, s.n_total_new_patients, s.n_A_new_patients,
   s.n_B_new_patients, s.n_N_new_patients, s.n_step_down_patients⟩

@[simp] theorem setWP_name (b : Bool) (p : Physician) : (setWP b p).name = p.name := rfl
@[simp] theorem setWP_team (b : Bool) (p : Physician) : (setWP b p).team = p.team := rfl
@[simp] theorem setWP_is_new (b : Bool) (p : Physician) : (setWP b p).is_new = p.is_new := rfl
@[simp] theorem setWP_is_buffer (b : Bool) (p : Physician) :
    (setWP b p).is_buffer = p.is_buffer := rfl
@[simp] theorem setWP_total (b : Bool) (p : Physician) :
    (setWP b p).total_patients = p.total_patients := rfl
@[simp] theorem setWP_sd (b : Bool) (p : Physician) :
    (setWP b p).step_down_patients = p.step_down_patients := rfl

@[simp] theorem setW_physicians (f : Nat → Bool) (s : AllocState) :
    (setW f s).physicians = setWL f s.physicians := rfl
@[simp] theorem setW_nt (f : Nat → Bool) (s : AllocState) :
    (setW f s).n_total_new_patients = s.n_total_new_patients := rfl
@[simp] theorem setW_nA (f : Nat → Bool) (s : AllocState) :
    (setW f s).n_A_new_patients = s.n_A_new_patients := rfl
@[simp] theorem setW_nB (f : Nat → Bool) (s : AllocState) :
    (setW f s).n_B_new_patients = s.n_B_new_patients := rfl
@[simp] theorem setW_nN (f : Nat → Bool) (s : AllocState) :
    (setW f s).n_N_new_patients = s.n_N_new_patients := rfl
@[simp] theorem setW_nSD (f : Nat → Bool) (s : AllocState) :
    (setW f s).n_step_down_patients = s.n_step_down_patients := rfl

@[simp] theorem can_take_setWP (M : Int) (b : Bool) (p : Physician) :
    can_take_patient M (setWP b p) = can_take_patient M p := rfl

theorem setWFrom_length (f : Nat → Bool) :
    ∀ (l : List Physician) (k : Nat), (setWFrom f k l).length = l.length := by
  intro l
  induction l with
  | nil => intro k; rfl
  | cons p rest ih => intro k; simpa [setWFrom] using ih (k+1)

@[simp] theorem setWL_length (f : Nat → Bool) (l : List Physician) :
    (setWL f l).length = l.length := setWFrom_length f l 0

theorem get?_setWFrom (f : Nat → Bool) :
    ∀ (l : List Physician) (k j : Nat),
      (setWFrom f k l).get? j = (l.get? j).map (setWP (f (k + j))) := by
  intro l
  induction l with
  | nil => intro k j; rfl
  | cons p rest ih =>
    intro k j
    cases j with
    | zero => rfl
    | succ n =>
      show (setWFrom f (k+1) rest).get? n = (rest.get? n).map (setWP (f (k + (n+1))))
      rw [ih (k+1) n, show (k+1) + n = k + (n+1) by omega]

theorem get?_setWL (f : Nat → Bool) (l : List Physician) (j : Nat) :
    (setWL f l).get? j = (l.get? j).map (setWP (f j)) := by
  rw [setWL, get?_setWFrom f l 0 j, Nat.zero_add]

@[simp] theorem totAt_setWL (f : Nat → Bool) (l : List Physician) (j : Nat) :
    totAt (setWL f l) j = totAt l j := by
  unfold totAt
  rw [get?_setWL]
  cases l.get? j <;> rfl

@[simp] theorem sdAt_setWL (f : Nat → Bool) (l : List Physician) (j : Nat) :
    sdAt (setWL f l) j = sdAt l j := by
  unfold sdAt
  rw [get?_setWL]
  cases l.get? j <;> rfl

@[simp] theorem nameAt_setWL (f : Nat → Bool) (l : List Physician) (j : Nat) :
    nameAt (setWL f l) j = nameAt l j := by
  unfold nameAt
  rw [get?_setWL]
  cases l.get? j <;> rfl

theorem modifyIdx_setWFrom_add (f : Nat → Bool) :
    ∀ (l : List Physician) (k i : Nat),
      modifyIdx (setWFrom f k l) i add_patient = setWFrom f k (modifyIdx l i add_patient) := by
  intro l
  induction l with
  | nil => intro k i; rfl
  | cons p rest ih =>
    intro k i
    cases i with
    | zero => rfl
    | succ n =>
      show setWP (f k) p :: modifyIdx (setWFrom f (k+1) rest) n add_patient
        = setWP (f k) p :: setWFrom f (k+1) (modifyIdx rest n add_patient)
      rw [ih (k+1) n]

theorem modifyIdx_setWL_add (f : Nat → Bool) (l : List Physician) (i : Nat) :
    modifyIdx (setWL f l) i add_patient = setWL f (modifyIdx l i add_patient) :=
  modifyIdx_setWFrom_add f l 0 i

theorem allocFromA_setW (f : Nat → Bool) (s : AllocState) (i : Nat) :
    allocFromA (setW f s) i = setW f (allocFromA s i) := by
  unfold allocFromA setW
  simp only [modifyIdx_setWL_add]

theorem allocFromB_setW (f : Nat → Bool) (s : AllocState) (i : Nat) :
    allocFromB (setW f s) i = setW f (allocFromB s i) := by
  unfold allocFromB setW
  simp only [modifyIdx_setWL_add]

theorem allocFromN_setW (f : Nat → Bool) (s : AllocState) (i : Nat) :
    allocFromN (setW f s) i = setW f (allocFromN s i) := by
  unfold allocFromN setW
  simp only [modifyIdx_setWL_add]

theorem allocTeam_setW (t : String) (f : Nat → Bool) (s : AllocState) (i : Nat) :
    allocTeam t (setW f s) i = setW f (allocTeam t s i) := by
  unfold allocTeam
  split
  · exact allocFromA_setW f s i
  · split
    · exact allocFromB_setW f s i
    · split
      · exact allocFromN_setW f s i
      · rfl

theorem phase2Inner_setW (M : Int) (t : String) (i : Nat) (f : Nat → Bool) :
    ∀ (n : Nat) (s : AllocState),
      phase2Inner M t i (setW f s) n = setW f (phase2Inner M t i s n) := by
  intro n
  induction n with
  | zero => intro s; rfl
  | succ n ih =>
    intro s
    rw [phase2Inner, phase2Inner]
    rw [show (setW f s).physicians.get? i = (s.physicians.get? i).map (setWP (f i)) from
      get?_setWL f s.physicians i]
    cases hg : s.physicians.get? i with
    | none => rfl
    | some p =>
      simp only [Option.map_some']
      rw [can_take_setWP]
      split
      · rw [allocTeam_setW, ih]
      · rfl

theorem phase2Step_setW (M mp : Int) (f : Nat → Bool) (s : AllocState) (i : Nat) :
    phase2Step mp M (setW f s) i = setW f (phase2Step mp M s i) := by
  rw [phase2Step, phase2Step]
  rw [show (setW f s).physicians.get? i = (s.physicians.get? i).map (setWP (f i)) from
    get?_setWL f s.physicians i]
  cases hg : s.physicians.get? i with
  | none => rfl
  | some p =>
    simp only [Option.map_some', setWP_is_new, setWP_total, setWP_team, can_take_setWP,
      setW_nA, setW_nB, setW_nN]
    split
    · rfl
    · split
      · split
        · exact phase2Inner_setW M "A" i f _ s
        · split
          · exact phase2Inner_setW M "B" i f _ s
          · split
            · exact phase2Inner_setW M "N" i f _ s
            · rfl
      · rfl

theorem phase2_setW (M mp : Int) (f : Nat → Bool) (s : AllocState) :
    phase2 mp M (setW f s) = setW f (phase2 mp M s) := by
  rw [phase2, phase2, setW_physicians, setWL_length]
  generalize List.range s.physicians.length = l
  induction l generalizing s with
  | nil => rfl
  | cons i rest ih =>
    rw [List.foldl_cons, List.foldl_cons, phase2Step_setW, ih]

theorem phase3Loop_setW (M : Int) (i : Nat) (f : Nat → Bool) :
    ∀ (n : Nat) (s : AllocState),
      phase3Loop M i (setW f s) n = setW f (phase3Loop M i s n) := by
  intro n
  induction n with
  | zero => intro s; rfl
  | succ n ih =>
    intro s
    rw [phase3Loop, phase3Loop]
    rw [show (setW f s).physicians.get? i = (s.physicians.get? i).map (setWP (f i)) from
      get?_setWL f s.physicians i]
    cases hg : s.physicians.get? i with
    | none => rfl
    | some p =>
      simp only [Option.map_some', can_take_setWP, setWP_team, setW_nA, setW_nB, setW_nN]
      split
      · split
        · rw [allocFromA_setW, ih]
        · split
          · rw [allocFromB_setW, ih]
          · split
            · rw [allocFromN_setW, ih]
            · split
              · rw [allocFromA_setW, ih]
              · split
                · rw [allocFromB_setW, ih]
                · split
                  · rw [allocFromN_setW, ih]
                  · rfl
      · rfl

theorem phase3Step_setW (M ns : Int) (f : Nat → Bool) (s : AllocState) (i : Nat) :
    phase3Step ns M (setW f s) i = setW f (phase3Step ns M s i) := by
  rw [phase3Step, phase3Step]
  rw [show (setW f s).physicians.get? i = (s.physicians.get? i).map (setWP (f i)) from
    get?_setWL f s.physicians i]
  cases hg : s.physicians.get? i with
  | none => rfl
  | some p =>
    simp only [Option.map_some', setWP_is_new, setWP_total]
    split
    · exact phase3Loop_setW M i f _ s
    · rfl

theorem phase3_setW (M ns : Int) (f : Nat → Bool) (s : AllocState) :
    phase3 ns M (setW f s) = setW f (phase3 ns M s) := by
  rw [phase3, phase3, setW_physicians, setWL_length]
  generalize List.range s.physicians.length = l
  induction l generalizing s with
  | nil => rfl
  | cons i rest ih =>
    rw [List.foldl_cons, List.foldl_cons, phase3Step_setW, ih]

theorem dictGet_setWFrom (f : Nat → Bool) (g : Physician → Int)
    (hg : ∀ b p, g (setWP b p) = g p) :
    ∀ (l : List Physician) (k : Nat) (nm : String) (d : Int),
      dictGet (setWFrom f k l) g nm d = dictGet l g nm d := by
  intro l
  induction l with
  | nil => intro k nm d; rfl
  | cons p rest ih =>
    intro k nm d
    show dictGet (setWP (f k) p :: setWFrom f (k+1) rest) g nm d = dictGet (p :: rest) g nm d
    by_cases hn : (p.name == nm) = true
    · unfold dictGet
      rw [@List.filter_cons_of_pos _ (fun q => q.name == nm) (setWP (f k) p)
            (setWFrom f (k+1) rest) hn,
          @List.filter_cons_of_pos _ (fun q => q.name == nm) p rest hn,
          List.getLast?_cons, List.getLast?_cons]
      show g (Option.getD
          (((setWFrom f (k+1) rest).filter (fun q => q.name == nm)).getLast?) (setWP (f k) p))
        = g (Option.getD ((rest.filter (fun q => q.name == nm)).getLast?) p)
      have e1 : g (Option.getD
          (((setWFrom f (k+1) rest).filter (fun q => q.name == nm)).getLast?) (setWP (f k) p))
          = dictGet (setWFrom f (k+1) rest) g nm (g p) := by
        unfold dictGet
        cases ((setWFrom f (k+1) rest).filter (fun q => q.name == nm)).getLast? <;>
          simp [hg]
      have e2 : g (Option.getD ((rest.filter (fun q => q.name == nm)).getLast?) p)
          = dictGet rest g nm (g p) := by
        unfold dictGet
        cases (rest.filter (fun q => q.name == nm)).getLast? <;> simp
      rw [e1, e2]
      exact ih (k+1) nm (g p)
    · unfold dictGet
      rw [@List.filter_cons_of_neg _ (fun q => q.name == nm) (setWP (f k) p)
            (setWFrom f (k+1) rest) hn,
          @List.filter_cons_of_neg _ (fun q => q.name == nm) p rest hn]
      have := ih (k+1) nm d
      unfold dictGet at this
      exact this

@[simp] theorem dictGet_setWL_tot (f : Nat → Bool) (l : List Physician) (nm : String)
    (d : Int) :
    dictGet (setWL f l) (fun q => q.total_patients) nm d
      = dictGet l (fun q => q.total_patients) nm d :=
  dictGet_setWFrom f (fun q => q.total_patients) (fun _ _ => rfl) l 0 nm d

@[simp] theorem dictGet_setWL_sd (f : Nat → Bool) (l : List Physician) (nm : String)
    (d : Int) :
    dictGet (setWL f l) (fun q => q.step_down_patients) nm d
      = dictGet l (fun q => q.step_down_patients) nm d :=
  dictGet_setWFrom f (fun q => q.step_down_patients) (fun _ _ => rfl) l 0 nm d

theorem nLoop_setW (M : Int) (f : Nat → Bool) :
    ∀ (idxs : List Nat) (s : AllocState), nLoop M (setW f s) idxs = setW f (nLoop M s idxs) := by
  intro idxs
  induction idxs with
  | nil => intro s; rfl
  | cons i rest ih =>
    intro s
    rw [nLoop, nLoop, setW_nN]
    split
    · rfl
    · rw [show (setW f s).physicians.get? i = (s.physicians.get? i).map (setWP (f i)) from
        get?_setWL f s.physicians i]
      cases hg : s.physicians.get? i with
      | none => exact ih s
      | some p =>
        simp only [Option.map_some', can_take_setWP]
        split
        · rw [allocFromN_setW, ih]
        · exact ih s

theorem crossPool_setW (M target gain : Int) (f : Nat → Bool) (b : Bool) (p : Physician)
    (s : AllocState) (i : Nat) :
    crossPool M target gain (setWP b p) (setW f s) i
      = ((setW f (crossPool M target gain p s i).1), (crossPool M target gain p s i).2) := by
  rw [crossPool, crossPool]
  simp only [can_take_setWP, setWP_is_buffer, setWP_team, setW_nA, setW_nB, setW_nN]
  split
  · split
    · split
      · rw [allocFromA_setW]
      · split
        · rw [allocFromB_setW]
        · split
          · rw [allocFromN_setW]
          · rfl
    · rfl
  · rfl

theorem distStep_setW (snap : List Physician) (M : Int) (ttg : String → Int)
    (f : Nat → Bool) (s : AllocState) (i : Nat) :
    distStep (setWL f snap) M ttg (setW f s) i
      = ((setW f (distStep snap M ttg s i).1), (distStep snap M ttg s i).2) := by
  rw [distStep, distStep]
  rw [show (setW f s).physicians.get? i = (s.physicians.get? i).map (setWP (f i)) from
    get?_setWL f s.physicians i]
  cases hg : s.physicians.get? i with
  | none => rfl
  | some p =>
    simp only [Option.map_some', setWP_is_new, setWP_total, setWP_name, setWP_team,
      can_take_setWP, setW_nA, setW_nB, setW_nN, dictGet_setWL_tot]
    split
    · rfl
    · split
      · rfl
      · split
        · split
          · rw [allocFromA_setW]
          · exact crossPool_setW M _ _ f (f i) p s i
        · split
          · split
            · rw [allocFromB_setW]
            · exact crossPool_setW M _ _ f (f i) p s i
          · split
            · split
              · rw [allocFromN_setW]
              · exact crossPool_setW M _ _ f (f i) p s i
            · exact crossPool_setW M _ _ f (f i) p s i

theorem distFold_setW (f : Nat → Bool) (snap : List Physician) (M : Int) (ttg : String → Int)
    (ps : List Nat) :
    ∀ (s : AllocState) (b : Bool),
      ps.foldl (fun acc i => ((distStep (setWL f snap) M ttg acc.1 i).1,
          acc.2 || (distStep (setWL f snap) M ttg acc.1 i).2)) (setW f s, b)
        = ((setW f ((ps.foldl (fun acc i => ((distStep snap M ttg acc.1 i).1,
            acc.2 || (distStep snap M ttg acc.1 i).2)) (s, b)).1)),
           (ps.foldl (fun acc i => ((distStep snap M ttg acc.1 i).1,
            acc.2 || (distStep snap M ttg acc.1 i).2)) (s, b)).2) := by
  induction ps with
  | nil => intro s b; rfl
  | cons i rest ih =>
    intro s b
    rw [List.foldl_cons, List.foldl_cons]
    have hstep := distStep_setW snap M ttg f s i
    rw [hstep]
    exact ih (distStep snap M ttg s i).1 (b || (distStep snap M ttg s i).2)

theorem distPass_setW (f : Nat → Bool) (snap : List Physician) (M : Int) (ttg : String → Int)
    (ps : List Nat) (s : AllocState) :
    distPass (setWL f snap) M ttg ps (setW f s)
      = ((setW f (distPass snap M ttg ps s).1), (distPass snap M ttg ps s).2) := by
  rw [distPass, distPass]
  exact distFold_setW f snap M ttg ps s false

theorem distLoop_setW (f : Nat → Bool) (snap : List Physician) (M : Int) (ttg : String → Int)
    (ps : List Nat) :
    ∀ (fuel : Nat) (s : AllocState),
      distLoop (setWL f snap) M ttg ps fuel (setW f s)
        = setW f (distLoop snap M ttg ps fuel s) := by
  intro fuel
  induction fuel with
  | zero => intro s; rfl
  | succ n ih =>
    intro s
    rw [distLoop, distLoop]
    simp only [setW_nA, setW_nB, setW_nN]
    split
    · try dsimp only
      rw [distPass_setW]
      split
      · exact ih (distPass snap M ttg ps s).1
      · rfl
    · rfl

theorem finalStep_setW (f : Nat → Bool) (snap : List Physician) (M : Int) (ttg : String → Int)
    (s : AllocState) (r : Int) (i : Nat) :
    finalStep (setWL f snap) M ttg (setW f s, r) i
      = ((setW f (finalStep snap M ttg (s, r) i).1), (finalStep snap M ttg (s, r) i).2) := by
  rw [finalStep, finalStep]
  try dsimp only
  rw [show (setW f s).physicians.get? i = (s.physicians.get? i).map (setWP (f i)) from
    get?_setWL f s.physicians i]
  cases hg : s.physicians.get? i with
  | none => rfl
  | some p =>
    simp only [Option.map_some', setWP_is_new, setWP_total, setWP_name,
      can_take_setWP, setW_nA, setW_nB, setW_nN, dictGet_setWL_tot]
    split
    · rfl
    · split
      · rfl
      · split
        · rfl
        · split
          · rw [allocFromA_setW]
          · split
            · rw [allocFromB_setW]
            · split
              · rw [allocFromN_setW]
              · rfl

theorem finalFold_setW (f : Nat → Bool) (snap : List Physician) (M : Int)
    (ttg : String → Int) (ps : List Nat) :
    ∀ (s : AllocState) (r : Int),
      ps.foldl (finalStep (setWL f snap) M ttg) (setW f s, r)
        = ((setW f ((ps.foldl (finalStep snap M ttg) (s, r)).1)),
           (ps.foldl (finalStep snap M ttg) (s, r)).2) := by
  induction ps with
  | nil => intro s r; rfl
  | cons i rest ih =>
    intro s r
    rw [List.foldl_cons, List.foldl_cons, finalStep_setW]
    exact ih (finalStep snap M ttg (s, r) i).1 (finalStep snap M ttg (s, r) i).2

theorem finalLoop_setW (f : Nat → Bool) (snap : List Physician) (M : Int)
    (ttg : String → Int) (s : AllocState) (ps : List Nat) (remFinal : Int) :
    finalLoop (setWL f snap) M ttg (setW f s) ps remFinal
      = setW f (finalLoop snap M ttg s ps remFinal) := by
  rw [finalLoop, finalLoop, finalFold_setW]

theorem ite_setW (f : Nat → Bool) (c : Prop) [Decidable c] (a b : AllocState) :
    (if c then setW f a else setW f b) = setW f (if c then a else b) := by
  split
  · rfl
  · rfl

theorem filterPred1_setW (M : Int) (b : Bool) (o : Option Physician) :
    (match o.map (setWP b) with
     | some p => !p.is_new && can_take_patient M p
     | none => false)
    = (match o with
       | some p => !p.is_new && can_take_patient M p
       | none => false) := by
  cases o with
  | none => rfl
  | some p => simp

theorem filterPred2_setW (b : Bool) (o : Option Physician) :
    (match o.map (setWP b) with
     | some p => !p.is_new
     | none => false)
    = (match o with
       | some p => !p.is_new
       | none => false) := by
  cases o with
  | none => rfl
  | some p => simp

theorem filterPred3_setW (M : Int) (b : Bool) (o : Option Physician) :
    (match o.map (setWP b) with
     | some p => p.team == "N" && !p.is_new && can_take_patient M p
     | none => false)
    = (match o with
       | some p => p.team == "N" && !p.is_new && can_take_patient M p
       | none => false) := by
  cases o with
  | none => rfl
  | some p => simp

@[simp] theorem totKeyD_setWL (f : Nat → Bool) (snap l : List Physician) (i : Nat) :
    totKeyD (setWL f snap) (setWL f l) i = totKeyD snap l i := by
  unfold totKeyD
  simp

@[simp] theorem needKey_setWL (f : Nat → Bool) (snap : List Physician) (ttg : String → Int)
    (l : List Physician) (i : Nat) :
    needKey (setWL f snap) ttg (setWL f l) i = needKey snap ttg l i := by
  unfold needKey
  simp

theorem buildCG_setW (f : Nat → Bool) (snap : List Physician) (s : AllocState)
    (idxs : List Nat) :
    buildCG (setWL f snap) (setW f s) idxs = buildCG snap s idxs := by
  unfold buildCG
  have hstep : (fun (g : String → Int) i =>
      match (setW f s).physicians.get? i with
      | some p => updFn g p.name
          (p.total_patients - dictGet (setWL f snap) (fun q => q.total_patients) p.name 0)
      | none => g)
    = (fun (g : String → Int) i =>
      match s.physicians.get? i with
      | some p => updFn g p.name
          (p.total_patients - dictGet snap (fun q => q.total_patients) p.name 0)
      | none => g) := by
    funext g i
    rw [show (setW f s).physicians.get? i = (s.physicians.get? i).map (setWP (f i)) from
      get?_setWL f s.physicians i]
    cases s.physicians.get? i with
    | none => rfl
    | some p => simp
  rw [hstep]

theorem phase4_setW (f : Nat → Bool) (snap : List Physician) (M : Int) (s : AllocState) :
    phase4 (setWL f snap) M (setW f s) = setW f (phase4 snap M s) := by
  rw [phase4, phase4]
  simp only [setW_physicians, setWL_length, get?_setWL, filterPred1_setW, filterPred2_setW,
    filterPred3_setW, totAt_setWL, nameAt_setWL, totKeyD_setWL, needKey_setWL,
    dictGet_setWL_tot, setW_nA, setW_nB, setW_nN, nLoop_setW, ite_setW, buildCG_setW,
    distLoop_setW, finalLoop_setW]

/-- C10: the `is_working` flag is consulted only by Phase 1's step-down
distribution.  Formally, Phases 2, 3 and 4 commute with an arbitrary rewrite
`setW f` of every physician's `is_working` flag (the snapshot being rewritten
the same way for Phase 4), so they treat a non-working physician exactly like
a working one.  Concretely, a non-working, non-new Team A physician with
total 5 ≤ minimum − 2 = 8 and a non-empty own-team pool is raised to the
minimum-floor target 10 by Phase 2, and then participates fully in Phase 4's
fair-share distribution, ending the whole run at 12. -/
theorem C10_working_only_phase1 :
    (∀ (f : Nat → Bool) (mp M : Int) (s : AllocState),
        phase2 mp M (setW f s) = setW f (phase2 mp M s))
    ∧ (∀ (f : Nat → Bool) (ns M : Int) (s : AllocState),
        phase3 ns M (setW f s) = setW f (phase3 ns M s))
    ∧ (∀ (f : Nat → Bool) (snap : List Physician) (M : Int) (s : AllocState),
        phase4 (setWL f snap) M (setW f s) = setW f (phase4 snap M s))
    ∧ (phase2 10 20 (phase1 [⟨"x", false, "A", false, false, 5, 0, 0, 0⟩]
          ⟨[⟨"x", false, "A", false, false, 5, 0, 0, 0⟩], 7, 7, 0, 0, 0⟩)).physicians
        = [⟨"x", false, "A", false, false, 10, 0, 0, 0⟩]
    ∧ allocate_patients [⟨"x", false, "A", false, false, 5, 0, 0, 0⟩] 7 7 0 0 5 10 0 20
        = some ⟨[⟨"x", false, "A", false, false, 12, 0, 0, 0⟩], 0, 0, 0, 0, 0⟩ :=
  ⟨fun f mp M s => phase2_setW M mp f s,
   fun f ns M s => phase3_setW M ns f s,
   fun f snap M s => phase4_setW f snap M s,
   by decide,
   by decide⟩
